import Mathlib

/-!
Verification of the JSON context codec of the
`rust-server-sdk-evaluation` repository (file
`src/contexts/context_serde.rs`).

The development shallowly embeds the codec: a `Json` tree type stands for
`serde_json::Value` (objects are association lists, the insertion order of
Rust hash maps being unspecified, claims about serialized output are stated
up to object-field order via the `jsort` normalizer), and the intermediate
records `ContextVariant`, `MultiKindContext`, `SingleKindStandaloneContext`,
`SingleKindContext`, `Meta`, `UserFormat` mirror the Rust structs together
with their derived serde (de)serializers.  The `Context` model, the
builders, `Kind` validation, `AttributeValue`, `AttributeName` and the three
skip-serialization helpers live outside the given source file; those
definitions are modelled from the specification and are marked as such.
-/

namespace ContextSerde

/-- JSON values (`serde_json::Value`); numbers are restricted to integers,
which is irrelevant here since the codec treats attribute values opaquely. -/
inductive Json where
  | null : Json
  | bool : Bool → Json
  | num : Int → Json
  | str : String → Json
  | arr : List Json → Json
  | obj : List (String × Json) → Json
  deriving Repr

/-- Entry list of a JSON object. -/
abbrev Entries := List (String × Json)

mutual
def decEqJson : (a b : Json) → Decidable (a = b)
  | .null, .null => isTrue rfl
  | .bool x, .bool y =>
      match decEq x y with
      | isTrue h => isTrue (by rw [h])
      | isFalse h => isFalse (by intro hh; cases hh; exact h rfl)
  | .num x, .num y =>
      match decEq x y with
      | isTrue h => isTrue (by rw [h])
      | isFalse h => isFalse (by intro hh; cases hh; exact h rfl)
  | .str x, .str y =>
      match decEq x y with
      | isTrue h => isTrue (by rw [h])
      | isFalse h => isFalse (by intro hh; cases hh; exact h rfl)
  | .arr x, .arr y =>
      match decEqJsonList x y with
      | isTrue h => isTrue (by rw [h])
      | isFalse h => isFalse (by intro hh; cases hh; exact h rfl)
  | .obj x, .obj y =>
      match decEqJsonEntries x y with
      | isTrue h => isTrue (by rw [h])
      | isFalse h => isFalse (by intro hh; cases hh; exact h rfl)
  | .null, .bool _ => isFalse (by intro h; cases h)
  | .null, .num _ => isFalse (by intro h; cases h)
  | .null, .str _ => isFalse (by intro h; cases h)
  | .null, .arr _ => isFalse (by intro h; cases h)
  | .null, .obj _ => isFalse (by intro h; cases h)
  | .bool _, .null => isFalse (by intro h; cases h)
  | .bool _, .num _ => isFalse (by intro h; cases h)
  | .bool _, .str _ => isFalse (by intro h; cases h)
  | .bool _, .arr _ => isFalse (by intro h; cases h)
  | .bool _, .obj _ => isFalse (by intro h; cases h)
  | .num _, .null => isFalse (by intro h; cases h)
  | .num _, .bool _ => isFalse (by intro h; cases h)
  | .num _, .str _ => isFalse (by intro h; cases h)
  | .num _, .arr _ => isFalse (by intro h; cases h)
  | .num _, .obj _ => isFalse (by intro h; cases h)
  | .str _, .null => isFalse (by intro h; cases h)
  | .str _, .bool _ => isFalse (by intro h; cases h)
  | .str _, .num _ => isFalse (by intro h; cases h)
  | .str _, .arr _ => isFalse (by intro h; cases h)
  | .str _, .obj _ => isFalse (by intro h; cases h)
  | .arr _, .null => isFalse (by intro h; cases h)
  | .arr _, .bool _ => isFalse (by intro h; cases h)
  | .arr _, .num _ => isFalse (by intro h; cases h)
  | .arr _, .str _ => isFalse (by intro h; cases h)
  | .arr _, .obj _ => isFalse (by intro h; cases h)
  | .obj _, .null => isFalse (by intro h; cases h)
  | .obj _, .bool _ => isFalse (by intro h; cases h)
  | .obj _, .num _ => isFalse (by intro h; cases h)
  | .obj _, .str _ => isFalse (by intro h; cases h)
  | .obj _, .arr _ => isFalse (by intro h; cases h)

def decEqJsonList : (a b : List Json) → Decidable (a = b)
  | [], [] => isTrue rfl
  | [], _ :: _ => isFalse (by intro h; cases h)
  | _ :: _, [] => isFalse (by intro h; cases h)
  | x :: xs, y :: ys =>
      match decEqJson x y, decEqJsonList xs ys with
      | isTrue h1, isTrue h2 => isTrue (by rw [h1, h2])
      | isFalse h1, _ => isFalse (by intro hh; cases hh; exact h1 rfl)
      | _, isFalse h2 => isFalse (by intro hh; cases hh; exact h2 rfl)

def decEqJsonEntries : (a b : Entries) → Decidable (a = b)
  | [], [] => isTrue rfl
  | [], _ :: _ => isFalse (by intro h; cases h)
  | _ :: _, [] => isFalse (by intro h; cases h)
  | (k, v) :: xs, (k2, v2) :: ys =>
      match decEq k k2, decEqJson v v2, decEqJsonEntries xs ys with
      | isTrue h0, isTrue h1, isTrue h2 => isTrue (by rw [h0, h1, h2])
      | isFalse h0, _, _ => isFalse (by intro hh; cases hh; exact h0 rfl)
      | _, isFalse h1, _ => isFalse (by intro hh; cases hh; exact h1 rfl)
      | _, _, isFalse h2 => isFalse (by intro hh; cases hh; exact h2 rfl)
end

instance : DecidableEq Json := decEqJson

/-- Keys of an object entry list. -/
def keysOf (l : Entries) : List String := l.map Prod.fst

/-- First-match association-list lookup; models field access on a
`serde_json` map (whose keys are unique). -/
def alookup (x : String) : Entries → Option Json
  | [] => none
  | p :: t => if p.1 = x then some p.2 else alookup x t

/-- Insert-or-replace; models `HashMap::insert` (keyed entries unique). -/
def ainsert (x : String) (v : Json) : Entries → Entries
  | [] => [(x, v)]
  | p :: t => if p.1 = x then (x, v) :: t else p :: ainsert x v t

/-! ### Key-sorted normal form of JSON values

Rust hash maps do not guarantee iteration order, and the specification
compares serialized output "ignoring object-field order"; `jsort`
recursively sorts every object by key and is the normal form used in the
round-trip statements. -/
/-- Kernel-computable lexicographic order on character lists (the core
`String` order is byte-iterator based and does not reduce in the kernel). -/
def strLeB : List Char → List Char → Bool
  | [], _ => true
  | _ :: _, [] => false
  | a :: as, b :: bs =>
    if a.toNat < b.toNat then true
    else if b.toNat < a.toNat then false
    else strLeB as bs

/-- Entry order by key. -/
def keyLeB (p q : String × Json) : Bool := strLeB p.1.data q.1.data

/-- Insert an entry into a key-sorted entry list. -/
def insEntry (p : String × Json) : Entries → Entries
  | [] => [p]
  | q :: t => if keyLeB p q then p :: q :: t else q :: insEntry p t

/-- Sort an entry list by key (insertion sort). -/
def sortEntries : Entries → Entries
  | [] => []
  | p :: t => insEntry p (sortEntries t)

/-- Sortedness of entry lists under the key order. -/
def EntSorted (l : Entries) : Prop := l.Pairwise (fun p q => keyLeB p q = true)

mutual
/-- Recursively sort all objects of a JSON value by key. -/
def jsort : Json → Json
  | .null => .null
  | .bool b => .bool b
  | .num n => .num n
  | .str s => .str s
  | .arr l => .arr (jsortList l)
  | .obj l => .obj (sortEntries (jsortEntries l))

def jsortList : List Json → List Json
  | [] => []
  | x :: xs => jsort x :: jsortList xs

def jsortEntries : Entries → Entries
  | [] => []
  | p :: xs => (p.1, jsort p.2) :: jsortEntries xs
end

/-! ### Intermediate records (the serde structs of `context_serde.rs`) -/
/-- The `_meta` sub-record (struct `Meta`). -/
structure Meta where
  secondary : Option String
  private_attributes : Option (List String)
  deriving DecidableEq, Repr

/-- A single-kind context nested within a multi-kind context
(struct `SingleKindContext`); `attributes` holds every flattened field that
is not `key`, `name`, `anonymous` or `_meta`.  Attribute values
(`AttributeValue`) are modelled from the spec as opaque JSON values. -/
structure SingleKindContext where
  key : String
  name : Option String
  anonymous : Option Bool
  attributes : Entries
  meta : Option Meta
  deriving DecidableEq, Repr

/-- A standalone single-kind context (struct `SingleKindStandaloneContext`). -/
structure SingleKindStandaloneContext where
  kind : String
  context : SingleKindContext
  deriving DecidableEq, Repr

/-- A multi-kind context (struct `MultiKindContext`); the flattened mapping
from kind to nested context is an association list because Rust hash-map
iteration order is unspecified. -/
structure MultiKindContext where
  kind : String
  contexts : List (String × SingleKindContext)
  deriving DecidableEq, Repr

/-- The legacy user format (struct `UserFormat`).  `AttributeName` is
modelled from the spec as an opaque string. -/
structure UserFormat where
  key : String
  name : Option String
  secondary : Option String
  anonymous : Option Bool
  custom : Option Entries
  private_attribute_names : Option (List String)
  first_name : Option String
  last_name : Option String
  avatar : Option String
  email : Option String
  country : Option String
  ip : Option String
  deriving DecidableEq, Repr

/-- The three context formats recognized by the SDK (enum `ContextVariant`). -/
inductive ContextVariant where
  | multi : MultiKindContext → ContextVariant
  | single : SingleKindStandaloneContext → ContextVariant
  | implicit : UserFormat → ContextVariant
  deriving DecidableEq, Repr

def ContextVariant.isImplicit : ContextVariant → Bool
  | .implicit _ => true
  | _ => false

/-! ### The `Context` model and the builder contract

Modelled from the spec: the `Context` type and the two builders live in
`context.rs`, which is not part of the given source; sections 3 and 6 of the
spec describe them.  A context is either single-kind (a kind, a key, a name,
an anonymous flag, attributes, a secondary key and private attributes) or
multi-kind (a non-empty collection of kind-tagged single-kind contexts). -/
/-- Modelled from the spec: the single-kind part of the external `Context`
model (spec section 3). -/
structure SingleContext where
  kind : String
  key : String
  name : Option String
  anonymous : Bool
  attributes : Entries
  secondary : Option String
  private_attributes : Option (List String)
  deriving DecidableEq, Repr

/-- Modelled from the spec: the external `Context` model (spec section 3);
`contexts` is present exactly for multi-kind contexts, which the two
constructors express directly. -/
inductive Context where
  | single : SingleContext → Context
  | multi : List SingleContext → Context
  deriving DecidableEq, Repr

/-- The kind of a context (`Context::kind`; `"multi"` for multi-kind). -/
def Context.kindOf : Context → String
  | .single c => c.kind
  | .multi _ => "multi"

/-- Modelled from the spec: kinds accepted by the single-context builder —
non-empty, not the reserved word `kind` (spec section 3) and not the
multi-variant sentinel `multi` (reserved for the multi builder). -/
def kindValidB (k : String) : Bool :=
  if k = "" then false else if k = "kind" then false else if k = "multi" then false else true

def msgEmptyKey : String := "context key must not be empty"

def msgInvalidKind : String := "context kind is invalid"

def msgEmptyMulti : String := "multi context must contain at least one kind"

def msgKindNull : String := "context kind cannot be null"

def msgKindNotString : String := "context kind must be a string"

def msgKindEmpty : String := "context kind cannot be empty string"

def msgKindWord : String := "context kind cannot be the word kind"

/-- The error messages of the kind discriminator (the symbolic `InvalidKind`
error of the spec). -/
def invalidKindMsgs : List String :=
  [msgKindNull, msgKindNotString, msgKindEmpty, msgKindWord]

/-- Modelled from the spec: the single-context builder state (spec
section 6). -/
structure ContextBuilder where
  key : String
  kind : String
  name : Option String
  anonymous : Bool
  secondary : Option String
  attributes : Entries
  privList : List String
  allowEmpty : Bool
  deriving Repr

/-- Modelled from the spec: `ContextBuilder::new(key)`; the default kind of
a freshly seeded builder is `user` (legacy decoding yields kind `user`,
spec section 4.3). -/
def ContextBuilder.new (key : String) : ContextBuilder :=
  ⟨key, "user", none, false, none, [], [], false⟩

/-- Modelled from the spec: `ContextBuilder::allow_empty_key`. -/
def ContextBuilder.allow_empty_key (b : ContextBuilder) : ContextBuilder :=
  { b with allowEmpty := true }

/-- Modelled from the spec: `ContextBuilder::kind`. -/
def ContextBuilder.set_kind (b : ContextBuilder) (k : String) : ContextBuilder :=
  { b with kind := k }

/-- Modelled from the spec: `ContextBuilder::name`. -/
def ContextBuilder.set_name (b : ContextBuilder) (n : String) : ContextBuilder :=
  { b with name := some n }

/-- Modelled from the spec: `ContextBuilder::anonymous`. -/
def ContextBuilder.set_anonymous (b : ContextBuilder) (a : Bool) : ContextBuilder :=
  { b with anonymous := a }

/-- Modelled from the spec: `ContextBuilder::secondary`. -/
def ContextBuilder.set_secondary (b : ContextBuilder) (s : String) : ContextBuilder :=
  { b with secondary := some s }

/-- Modelled from the spec: `ContextBuilder::set_value(name, value)` sets
the attribute of that name (spec section 6). -/
def ContextBuilder.set_value (b : ContextBuilder) (n : String) (v : Json) : ContextBuilder :=
  { b with attributes := ainsert n v b.attributes }

/-- Modelled from the spec: `ContextBuilder::set_string`. -/
def ContextBuilder.set_string (b : ContextBuilder) (n : String) (s : String) : ContextBuilder :=
  b.set_value n (Json.str s)

/-- Modelled from the spec: `ContextBuilder::add_private_attribute`. -/
def ContextBuilder.add_private_attribute (b : ContextBuilder) (a : String) : ContextBuilder :=
  { b with privList := b.privList ++ [a] }

/-- Modelled from the spec: `ContextBuilder::build` — rejects an empty key
unless the builder was marked empty-key-allowed (invariant I5), rejects
invalid kinds, and materializes the accumulated state. -/
def ContextBuilder.build (b : ContextBuilder) : Except String SingleContext :=
  if b.key = "" && !b.allowEmpty then .error msgEmptyKey
  else if !kindValidB b.kind then .error msgInvalidKind
  else .ok ⟨b.kind, b.key, b.name, b.anonymous, b.attributes, b.secondary,
    if b.privList.isEmpty then none else some b.privList⟩

/-- Modelled from the spec: the multi-context builder (spec section 6). -/
structure MultiContextBuilder where
  contexts : List SingleContext
  deriving Repr

/-- Modelled from the spec: `MultiContextBuilder::new`. -/
def MultiContextBuilder.new : MultiContextBuilder := ⟨[]⟩

/-- Modelled from the spec: `MultiContextBuilder::add_context`; by
construction the codec only adds single-kind contexts. -/
def MultiContextBuilder.add_context (m : MultiContextBuilder) (c : SingleContext) :
    MultiContextBuilder := ⟨m.contexts ++ [c]⟩

/-- Modelled from the spec: `MultiContextBuilder::build` — a multi-kind
context must contain at least one nested context (invariant I3, the
symbolic `EmptyMulti` error). -/
def MultiContextBuilder.build (m : MultiContextBuilder) : Except String Context :=
  if m.contexts.isEmpty then .error msgEmptyMulti else .ok (Context.multi m.contexts)

/-! ### Deserialization (the Deserialize impls of `context_serde.rs`) -/
/-- Strict optional string field: absent and null read as `None`
(`Option<String>`). -/
def parseFieldOptString : Option Json → Except String (Option String)
  | none => .ok none
  | some .null => .ok none
  | some (.str s) => .ok (some s)
  | some _ => .error "expected a string"

/-- Strict optional boolean field (`Option<bool>`). -/
def parseFieldOptBool : Option Json → Except String (Option Bool)
  | none => .ok none
  | some .null => .ok none
  | some (.bool b) => .ok (some b)
  | some _ => .error "expected a boolean"

/-- Strict string-list element (`String` / `AttributeName`, the latter
modelled from the spec as an opaque string). -/
def parseStrElem : Json → Except String String
  | .str s => .ok s
  | _ => .error "expected a string element"

/-- Strict optional list of strings (`Option<Vec<String>>` and
`Option<Vec<AttributeName>>`). -/
def parseFieldOptStrList : Option Json → Except String (Option (List String))
  | none => .ok none
  | some .null => .ok none
  | some (.arr l) => (l.mapM parseStrElem).map some
  | some _ => .error "expected an array"

/-- The derived deserializer of `Meta`: `secondary` and
`privateAttributes` are read strictly and unknown fields are ignored. -/
def parseMeta (ms : Entries) : Except String Meta := do
  let sec ← parseFieldOptString (alookup "secondary" ms)
  let pa ← parseFieldOptStrList (alookup "privateAttributes" ms)
  .ok ⟨sec, pa⟩

/-- The `_meta` field of `SingleKindContext`: absent and null read as
`None`; a non-object is an error (invariant I4). -/
def parseOptMeta : Option Json → Except String (Option Meta)
  | none => .ok none
  | some .null => .ok none
  | some (.obj ms) => (parseMeta ms).map some
  | some _ => .error "meta must be an object"

/-- The named fields consumed by the derived deserializer of
`SingleKindContext`; in the standalone format the surrounding
`SingleKindStandaloneContext` additionally consumes `kind`. -/
def consumedKeys (dropKind : Bool) : List String :=
  if dropKind then ["kind", "key", "name", "anonymous", "_meta"]
  else ["key", "name", "anonymous", "_meta"]

/-- The required `key` field (`String`). -/
def parseKeyField : Option Json → Except String String
  | some (.str s) => .ok s
  | some _ => .error "context key must be a string"
  | none => .error "missing context key"

/-- The legacy `custom` field (`Option<HashMap<String, AttributeValue>>`,
attribute values modelled from the spec as opaque JSON). -/
def parseCustomField : Option Json → Except String (Option Entries)
  | none => .ok none
  | some .null => .ok none
  | some (.obj m) => .ok (some m)
  | some _ => .error "custom must be an object"

/-- The derived deserializer of `SingleKindContext`: `key` is required,
`name` / `anonymous` / `_meta` are strict optionals, every other field is
flattened into `attributes` in input order. -/
def parseSingleKind (dropKind : Bool) (kvs : Entries) : Except String SingleKindContext := do
  let key ← parseKeyField (alookup "key" kvs)
  let name ← parseFieldOptString (alookup "name" kvs)
  let anon ← parseFieldOptBool (alookup "anonymous" kvs)
  let meta ← parseOptMeta (alookup "_meta" kvs)
  .ok ⟨key, name, anon, kvs.filter (fun p => !(consumedKeys dropKind).contains p.1), meta⟩

/-- The deserializer of `Kind` (modelled from the spec, `Kind` living
outside of the given source): a kind string must be non-empty and must not
be the reserved word `kind` (spec section 3). -/
def kindFromString (s : String) : Except String String :=
  if s = "" then .error msgKindEmpty
  else if s = "kind" then .error msgKindWord
  else .ok s

/-- The derived deserializer of `MultiKindContext`: every field other than
`kind` is a kind-keyed nested single-kind context. -/
def parseMulti (kvs : Entries) : Except String MultiKindContext := do
  let cs ← (kvs.filter (fun p => !(p.1 = "kind"))).mapM (fun p => do
    let k ← kindFromString p.1
    match p.2 with
    | .obj svs => (parseSingleKind false svs).map (fun c => (k, c))
    | _ => .error "nested context must be an object")
  .ok ⟨"multi", cs⟩

/-- The derived deserializer of `UserFormat`: only `key` is required, the
recognized optional fields are strict, unknown fields are ignored, and the
wire names of `first_name` / `last_name` / `private_attribute_names` are
camelCase. -/
def parseUser (kvs : Entries) : Except String UserFormat := do
  let key ← parseKeyField (alookup "key" kvs)
  let name ← parseFieldOptString (alookup "name" kvs)
  let secondary ← parseFieldOptString (alookup "secondary" kvs)
  let anonymous ← parseFieldOptBool (alookup "anonymous" kvs)
  let custom ← parseCustomField (alookup "custom" kvs)
  let pan ← parseFieldOptStrList (alookup "privateAttributeNames" kvs)
  let first_name ← parseFieldOptString (alookup "firstName" kvs)
  let last_name ← parseFieldOptString (alookup "lastName" kvs)
  let avatar ← parseFieldOptString (alookup "avatar" kvs)
  let email ← parseFieldOptString (alookup "email" kvs)
  let country ← parseFieldOptString (alookup "country" kvs)
  let ip ← parseFieldOptString (alookup "ip" kvs)
  .ok ⟨key, name, secondary, anonymous, custom, pan, first_name, last_name,
    avatar, email, country, ip⟩

/-- The custom Deserialize impl of `ContextVariant` — the shape
discriminator.  It reads the `kind` field of the JSON tree: present-null,
present-non-string, the empty string and (through `Kind`) the reserved word
`kind` are rejected; `multi` selects the multi format; any other string
selects the standalone single format; an absent `kind` selects the legacy
user format. -/
def decodeVariant : Json → Except String ContextVariant
  | .obj kvs =>
    match alookup "kind" kvs with
    | some .null => .error msgKindNull
    | some (.str s) =>
      if s = "multi" then (parseMulti kvs).map ContextVariant.multi
      else if s = "" then .error msgKindEmpty
      else do
        let k ← kindFromString s
        let c ← parseSingleKind true kvs
        .ok (ContextVariant.single ⟨k, c⟩)
    | some _ => .error msgKindNotString
    | none => (parseUser kvs).map ContextVariant.implicit
  | _ => .error "context must be a JSON object"

/-! ### Conversion to the model (TryFrom of `context_serde.rs`) -/
/-- The `if let Some(x) = o { f(b, x) }` idiom of the Rust converters. -/
def ifLet {α : Type} (o : Option α) (b : ContextBuilder)
    (f : ContextBuilder → α → ContextBuilder) : ContextBuilder :=
  match o with
  | some x => f b x
  | none => b

/-- `build_context`: apply a nested single-kind record to a builder —
attributes first, then `anonymous`, `name`, `_meta.secondary` and each
private attribute in list order. -/
def build_context (b : ContextBuilder) (c : SingleKindContext) : ContextBuilder :=
  let b := c.attributes.foldl (fun b p => b.set_value p.1 p.2) b
  let b := ifLet c.anonymous b ContextBuilder.set_anonymous
  let b := ifLet c.name b ContextBuilder.set_name
  ifLet c.meta b (fun b m =>
    let b := ifLet m.secondary b ContextBuilder.set_secondary
    ifLet m.private_attributes b (fun b l =>
      l.foldl (fun b a => b.add_private_attribute a) b))

/-- `should_skip_custom_attribute`: names in the reserved attribute set are
never taken from a legacy `custom` mapping. -/
def should_skip_custom_attribute (n : String) : Bool :=
  n = "kind" || n = "key" || n = "name" || n = "anonymous" || n = "_meta"

/-- `build_context_from_implicit_user`: project a legacy user onto a
builder — `anonymous`, `secondary`, `name`, then the dedicated attribute
fields (`first_name` and `last_name` are renamed to camelCase, the others
keep their names), then the non-reserved `custom` entries, then the private
attribute names. -/
def build_context_from_implicit_user (b : ContextBuilder) (u : UserFormat) : ContextBuilder :=
  let b := ifLet u.anonymous b ContextBuilder.set_anonymous
  let b := ifLet u.secondary b ContextBuilder.set_secondary
  let b := ifLet u.name b ContextBuilder.set_name
  let b := ifLet u.avatar b (fun b x => b.set_string "avatar" x)
  let b := ifLet u.first_name b (fun b x => b.set_string "firstName" x)
  let b := ifLet u.last_name b (fun b x => b.set_string "lastName" x)
  let b := ifLet u.country b (fun b x => b.set_string "country" x)
  let b := ifLet u.email b (fun b x => b.set_string "email" x)
  let b := ifLet u.ip b (fun b x => b.set_string "ip" x)
  let b := ifLet u.custom b (fun b m =>
    m.foldl (fun b p =>
      if should_skip_custom_attribute p.1 then b else b.set_value p.1 p.2) b)
  ifLet u.private_attribute_names b (fun b l =>
    l.foldl (fun b a => b.add_private_attribute a) b)

/-- The TryFrom impl of `Context`: convert a parsed variant into a model
context through the builder contract. -/
def contextFromVariant : ContextVariant → Except String Context
  | .multi m => do
    let cs ← m.contexts.mapM (fun p =>
      ((build_context (ContextBuilder.new p.2.key) p.2).set_kind p.1).build)
    (cs.foldl (fun mb c => mb.add_context c) MultiContextBuilder.new).build
  | .single s =>
    (((build_context (ContextBuilder.new s.context.key) s.context).set_kind s.kind).build).map
      Context.single
  | .implicit u =>
    ((build_context_from_implicit_user ((ContextBuilder.new u.key).allow_empty_key) u).build).map
      Context.single

/-- Full decoding: parse a JSON tree into a variant, then convert. -/
def decode (j : Json) : Except String Context :=
  (decodeVariant j).bind contextFromVariant

/-! ### Serialization (From and Serialize impls of `context_serde.rs`) -/
/-- `is_false_bool_option` (helper, modelled from the spec, section 4.5):
`anonymous` is omitted when absent or false. -/
def is_false_bool_option : Option Bool → Bool
  | none => true
  | some false => true
  | some true => false

/-- `is_empty_vec_option` (helper, modelled from the spec, section 4.5):
`privateAttributes` is omitted when absent or empty. -/
def is_empty_vec_option : Option (List String) → Bool
  | none => true
  | some [] => true
  | some (_ :: _) => false

/-- `is_none_meta_option` (helper, modelled from the spec, section 4.5):
`_meta` is omitted when absent, or when `secondary` is absent and
`private_attributes` is absent or empty. -/
def is_none_meta_option : Option Meta → Bool
  | none => true
  | some m => m.secondary.isNone && is_empty_vec_option m.private_attributes

/-- The derived serializer of `Meta` under its skip attributes. -/
def serialize_meta (m : Meta) : Entries :=
  (match m.secondary with
    | some s => [("secondary", Json.str s)]
    | none => []) ++
  (if is_empty_vec_option m.private_attributes then []
   else match m.private_attributes with
     | some l => [("privateAttributes", Json.arr (l.map Json.str))]
     | none => [])

/-- The derived serializer of `SingleKindContext` under its skip
attributes, in struct field order with the flattened attributes inlined. -/
def serialize_single_kind (c : SingleKindContext) : Entries :=
  ("key", Json.str c.key) ::
  ((match c.name with
     | some n => [("name", Json.str n)]
     | none => []) ++
   (if is_false_bool_option c.anonymous then []
    else match c.anonymous with
      | some b => [("anonymous", Json.bool b)]
      | none => []) ++
   c.attributes ++
   (if is_none_meta_option c.meta then []
    else match c.meta with
      | some m => [("_meta", Json.obj (serialize_meta m))]
      | none => []))

/-- The derived serializer of `SingleKindStandaloneContext`. -/
def serialize_standalone (s : SingleKindStandaloneContext) : Entries :=
  ("kind", Json.str s.kind) :: serialize_single_kind s.context

/-- The derived serializer of `MultiKindContext`. -/
def serialize_multi (m : MultiKindContext) : Entries :=
  ("kind", Json.str m.kind) ::
    m.contexts.map (fun p => (p.1, Json.obj (serialize_single_kind p.2)))

/-- The Serialize impl of `ContextVariant`; serializing the legacy variant
is the fatal programmer error (`unimplemented!`), modelled as `none`. -/
def serializeVariant : ContextVariant → Option Json
  | .multi m => some (Json.obj (serialize_multi m))
  | .single s => some (Json.obj (serialize_standalone s))
  | .implicit _ => none

/-- `single_kind_context_from`: project a model single-kind context onto
the intermediate record; `anonymous` and `_meta` are always populated. -/
def single_kind_context_from (c : SingleContext) : String × SingleKindContext :=
  (c.kind, ⟨c.key, c.name, some c.anonymous, c.attributes,
    some ⟨c.secondary, c.private_attributes⟩⟩)

/-- The From impl `Context → ContextVariant` — the projector. -/
def ContextVariant.from_context : Context → ContextVariant
  | .multi cs => .multi ⟨"multi", cs.map single_kind_context_from⟩
  | .single c => .single ⟨(single_kind_context_from c).1, (single_kind_context_from c).2⟩

/-- Full encoding: project a context and serialize it. -/
def encode (c : Context) : Option Json :=
  serializeVariant (ContextVariant.from_context c)

/-! ### Builder characterization lemmas -/
/-- Left-biased option choice (`Option::or`). -/
def optOr {α : Type} : Option α → Option α → Option α
  | some x, _ => some x
  | none, y => y

/-- Apply entries to an attribute map in order (insert-or-replace). -/
def applyEntries (m a : Entries) : Entries :=
  m.foldl (fun a p => ainsert p.1 p.2 a) a

/-- Apply legacy `custom` entries, skipping the reserved attribute set. -/
def applyCustom (m a : Entries) : Entries :=
  m.foldl (fun a p => if should_skip_custom_attribute p.1 then a else ainsert p.1 p.2 a) a

/-- Apply an optional legacy `custom` mapping. -/
def customApply : Option Entries → Entries → Entries
  | some m, a => applyCustom m a
  | none, a => a

/-- Apply an optional dedicated legacy string field. -/
def setStrAttr (k : String) (o : Option String) (a : Entries) : Entries :=
  match o with
  | some s => ainsert k (Json.str s) a
  | none => a

/-- The attribute map produced by decoding a legacy user. -/
def legacyAttrs (u : UserFormat) : Entries :=
  customApply u.custom (setStrAttr "ip" u.ip
    (setStrAttr "email" u.email (setStrAttr "country" u.country
      (setStrAttr "lastName" u.last_name (setStrAttr "firstName" u.first_name
        (setStrAttr "avatar" u.avatar []))))))

/-- The private-attribute list of a built context from an accumulated
builder list. -/
def privOf (l : List String) : Option (List String) :=
  if l.isEmpty then none else some l

/-- The single-kind context produced by the nested/standalone build path. -/
def nestedResult (k : String) (c : SingleKindContext) : SingleContext :=
  ⟨k, c.key, c.name, c.anonymous.getD false, applyEntries c.attributes [],
    c.meta.bind Meta.secondary, privOf ((c.meta.bind Meta.private_attributes).getD [])⟩

/-- The nested build step of the multi conversion path. -/
def buildNested (p : String × SingleKindContext) : Except String SingleContext :=
  ((build_context (ContextBuilder.new p.2.key) p.2).set_kind p.1).build

/-! ### Well-formedness and canonicalization vocabulary -/
/-- Duplicate-free keys, as a computable flag. -/
def nodupKeysB (l : Entries) : Bool := decide ((keysOf l).Nodup)

/-- Well-formedness of one single-kind object level: duplicate-free keys,
also inside a `_meta` object.  `serde_json` maps cannot hold duplicate
keys, so decodable inputs always satisfy this. -/
def singleWfB (kvs : Entries) : Bool :=
  nodupKeysB kvs &&
  (match alookup "_meta" kvs with
   | some (.obj ms) => nodupKeysB ms
   | _ => true)

/-- Well-formedness of a modern input: duplicate-free keys at every level
the codec inspects. -/
def modernWfB : Json → Bool
  | .obj kvs =>
    singleWfB kvs &&
    (match alookup "kind" kvs with
     | some (.str "multi") =>
       kvs.all (fun p =>
         if p.1 = "kind" then true
         else match p.2 with
           | .obj svs => singleWfB svs
           | _ => true)
     | _ => true)
  | _ => true

/-- Well-formedness of a model single-kind context: a valid kind,
duplicate-free attribute keys that avoid the five reserved field names, and
no empty private-attribute list (the builder yields `none` instead). -/
def SingleContext.WfB (c : SingleContext) : Bool :=
  kindValidB c.kind &&
  nodupKeysB c.attributes &&
  c.attributes.all (fun p => !(consumedKeys true).contains p.1) &&
  (match c.private_attributes with
   | some [] => false
   | _ => true)

/-- Well-formedness of a model context (spec section 3); an empty key is
allowed (the legacy-origin exception). -/
def Context.WfB : Context → Bool
  | .single c => c.WfB
  | .multi cs =>
    !cs.isEmpty &&
    cs.all SingleContext.WfB &&
    decide ((cs.map SingleContext.kind).Nodup)

/-- All keys of a context are non-empty. -/
def Context.allKeysNonempty : Context → Bool
  | .single c => c.key != ""
  | .multi cs => cs.all (fun c => c.key != "")

/-- A `secondary` value surviving `_meta` canonicalization: only strings. -/
def canonMetaSec (v : Json) : Option Json :=
  match v with
  | .str _ => some v
  | _ => none

/-- A `privateAttributes` value surviving `_meta` canonicalization: only
non-empty arrays. -/
def canonMetaPriv (v : Json) : Option Json :=
  match v with
  | .arr (_ :: _) => some v
  | _ => none

/-- Canonicalization of one `_meta` entry: only a string `secondary` and a
non-empty `privateAttributes` array survive re-encoding. -/
def canonMetaAt (x : String) (v : Json) : Option Json :=
  if x = "secondary" then canonMetaSec v
  else if x = "privateAttributes" then canonMetaPriv v
  else none

/-- Canonicalization of a `_meta` object. -/
def canonMetaEntries (ms : Entries) : Entries :=
  ms.filterMap (fun p => (canonMetaAt p.1 p.2).map (fun w => (p.1, w)))

/-- A `name` value surviving re-encoding: null is dropped. -/
def canonSingleName (v : Json) : Option Json :=
  match v with
  | .null => none
  | _ => some v

/-- An `anonymous` value surviving re-encoding: null and false are
dropped. -/
def canonSingleAnon (v : Json) : Option Json :=
  match v with
  | .null => none
  | .bool false => none
  | _ => some v

/-- A `_meta` value surviving re-encoding: null and objects that
canonicalize to the empty object are dropped. -/
def canonSingleMeta (v : Json) : Option Json :=
  match v with
  | .null => none
  | .obj ms =>
    match canonMetaEntries ms with
    | [] => none
    | l => some (.obj l)
  | _ => some v

/-- Canonicalization of one single-kind entry: a null `name`, a null or
false `anonymous`, a null `_meta` and a `_meta` that canonicalizes to the
empty object are dropped; everything else is kept. -/
def canonSingleAt (x : String) (v : Json) : Option Json :=
  if x = "name" then canonSingleName v
  else if x = "anonymous" then canonSingleAnon v
  else if x = "_meta" then canonSingleMeta v
  else some v

/-- Canonicalization of a single-kind object. -/
def canonSingleEntries (kvs : Entries) : Entries :=
  kvs.filterMap (fun p => (canonSingleAt p.1 p.2).map (fun w => (p.1, w)))

/-- A nested multi-kind value after a decode-encode round trip: objects
are canonicalized as single-kind objects. -/
def canonNestedVal (v : Json) : Option Json :=
  match v with
  | .obj svs => some (.obj (canonSingleEntries svs))
  | _ => some v

/-- Canonicalization of one multi-kind entry: nested objects are
canonicalized as single-kind objects. -/
def canonNestedAt (x : String) (v : Json) : Option Json :=
  if x = "kind" then some v
  else canonNestedVal v

/-- Canonicalization of a modern input: what decoding followed by encoding
preserves of it. -/
def canonModern (j : Json) : Json :=
  match j with
  | .obj kvs =>
    if alookup "kind" kvs = some (.str "multi") then
      .obj (kvs.filterMap (fun p => (canonNestedAt p.1 p.2).map (fun w => (p.1, w))))
    else .obj (canonSingleEntries kvs)
  | j => j

/-- The literal reading of round-trip claim: only `anonymous : false` and
an empty `_meta` object are dropped. -/
def stripDefaultsAt (x : String) (v : Json) : Option Json :=
  if x = "anonymous" ∧ v = Json.bool false then none
  else if x = "_meta" ∧ v = Json.obj [] then none
  else some v

/-- Drop `anonymous : false` and empty `_meta` objects from a modern
input (at top level, and inside every nested object of a multi-kind
input). -/
def stripDefaults (j : Json) : Json :=
  match j with
  | .obj kvs =>
    match alookup "kind" kvs with
    | some (.str "multi") =>
      .obj (kvs.map (fun p =>
        match p.2 with
        | .obj svs =>
          (p.1, Json.obj (svs.filterMap (fun q => (stripDefaultsAt q.1 q.2).map (fun w => (q.1, w)))))
        | v => (p.1, v)))
    | _ => .obj (kvs.filterMap (fun p => (stripDefaultsAt p.1 p.2).map (fun w => (p.1, w))))
  | j => j

/-- Spec-side projection of the legacy `name` field (spec section 4.3). -/
def legacyProjName (o : Option String) : Entries :=
  match o with
  | some n => [("name", Json.str n)]
  | none => []

/-- Spec-side projection of the legacy `anonymous` field: kept only when
true (spec sections 4.3 and 4.5). -/
def legacyProjAnon (o : Option Bool) : Entries :=
  match o with
  | some true => [("anonymous", Json.bool true)]
  | _ => []

/-- Spec-side projection of `secondary` and `privateAttributeNames` under
`_meta`, omitted when absent or empty (spec sections 4.3 and 4.5). -/
def legacyProjMeta (sec : Option String) (pan : Option (List String)) : Entries :=
  match sec, pan with
  | none, none => []
  | none, some [] => []
  | sec, pan =>
    [("_meta", Json.obj (
      (match sec with
        | some s => [("secondary", Json.str s)]
        | none => []) ++
      (match pan with
        | some (x :: xs) => [("privateAttributes", Json.arr ((x :: xs).map Json.str))]
        | _ => [])))]

/-- Spec-side projection of the legacy attribute table (spec section 4.3):
the dedicated fields in table order — `first_name` and `last_name` renamed
to camelCase, `avatar`, `country`, `email`, `ip` kept — then the custom
entries whose names are outside the reserved attribute set. -/
def legacyProjAttrs (u : UserFormat) : Entries :=
  match u.custom with
  | some m => m.foldl (fun a p =>
      if (["kind", "key", "name", "anonymous", "_meta"] : List String).contains p.1 then a
      else ainsert p.1 p.2 a)
      (setStrAttr "ip" u.ip (setStrAttr "email" u.email (setStrAttr "country" u.country
        (setStrAttr "lastName" u.last_name (setStrAttr "firstName" u.first_name
          (setStrAttr "avatar" u.avatar []))))))
  | none =>
    setStrAttr "ip" u.ip (setStrAttr "email" u.email (setStrAttr "country" u.country
      (setStrAttr "lastName" u.last_name (setStrAttr "firstName" u.first_name
        (setStrAttr "avatar" u.avatar [])))))

/-- The legacy projection table of spec section 4.3 together with the
serialization rules of sections 4.5 and 6, written from the specification:
kind `user`, the key verbatim, then `name`, `anonymous`, the attribute
table, and `_meta`. -/
def legacyProj (u : UserFormat) : Json :=
  Json.obj (
    [("kind", Json.str "user"), ("key", Json.str u.key)] ++
    legacyProjName u.name ++
    legacyProjAnon u.anonymous ++
    legacyProjAttrs u ++
    legacyProjMeta u.secondary u.private_attribute_names)

/-! ### Serializer entry groups and their lookups -/
/-- The `name` entry group of the single-kind serializer. -/
def nameEnt (o : Option String) : Entries :=
  match o with
  | some n => [("name", Json.str n)]
  | none => []

/-- The `anonymous` entry group of the single-kind serializer. -/
def anonEnt (o : Option Bool) : Entries :=
  if is_false_bool_option o then []
  else match o with
    | some b => [("anonymous", Json.bool b)]
    | none => []

/-- The `_meta` entry group of the single-kind serializer. -/
def metaEnt (o : Option Meta) : Entries :=
  if is_none_meta_option o then []
  else match o with
    | some m => [("_meta", Json.obj (serialize_meta m))]
    | none => []

/-! ### Round-trip machinery: parsing a serialized single-kind context -/
/-- The intermediate single-kind record projected from a model context. -/
def skFrom (c : SingleContext) : SingleKindContext :=
  ⟨c.key, c.name, some c.anonymous, c.attributes, some ⟨c.secondary, c.private_attributes⟩⟩

/-- The `anonymous` option recovered after a serialize-parse round trip. -/
def normAnon (b : Bool) : Option Bool :=
  if b then some true else none

/-- The `_meta` option recovered after a serialize-parse round trip. -/
def normMeta (sec : Option String) (priv : Option (List String)) : Option Meta :=
  if is_none_meta_option (some ⟨sec, priv⟩) then none else some ⟨sec, priv⟩

/-- The intermediate record recovered by parsing the serialization of a
model single-kind context. -/
def normSk (c : SingleContext) : SingleKindContext :=
  ⟨c.key, c.name, normAnon c.anonymous, c.attributes,
    normMeta c.secondary c.private_attributes⟩

theorem mem_keysOf_cons {x : String} {p : String × Json} {t : Entries} :
    x ∈ keysOf (p :: t) ↔ p.1 = x ∨ x ∈ keysOf t := by
  simp [keysOf, eq_comm]

@[simp]
theorem alookup_nil (x : String) : alookup x [] = none := rfl

theorem alookup_cons (x : String) (p : String × Json) (t : Entries) :
    alookup x (p :: t) = if p.1 = x then some p.2 else alookup x t := rfl

@[simp]
theorem alookup_cons_self (x : String) (v : Json) (t : Entries) :
    alookup x ((x, v) :: t) = some v := by simp [alookup]

theorem alookup_cons_ne (x : String) (p : String × Json) (t : Entries)
    (h : p.1 ≠ x) : alookup x (p :: t) = alookup x t := by
  simp [alookup, h]

theorem alookup_eq_none_iff (x : String) (l : Entries) :
    alookup x l = none ↔ x ∉ keysOf l := by
  induction l with
  | nil => simp [keysOf]
  | cons p t ih =>
    by_cases h : p.1 = x
    · subst h; simp [alookup, keysOf]
    · rw [alookup_cons, if_neg h]
      rw [ih]
      constructor
      · intro hh hmem
        rcases mem_keysOf_cons.1 hmem with he | hm
        · exact h he
        · exact hh hm
      · intro hh hm
        exact hh (mem_keysOf_cons.2 (Or.inr hm))

theorem alookup_isSome_of_mem {x : String} {v : Json} {l : Entries}
    (h : (x, v) ∈ l) : ∃ w, alookup x l = some w := by
  induction l with
  | nil => cases h
  | cons p t ih =>
    rcases List.mem_cons.1 h with he | hm
    · exact ⟨v, by rw [← he]; simp⟩
    · by_cases hx : p.1 = x
      · exact ⟨p.2, by simp [alookup, hx]⟩
      · rcases ih hm with ⟨w, hw⟩
        exact ⟨w, by simp [alookup, hx, hw]⟩

theorem alookup_append_left {x : String} {a : Entries} {v : Json}
    (h : alookup x a = some v) (b : Entries) : alookup x (a ++ b) = some v := by
  induction a with
  | nil => simp at h
  | cons p t ih =>
    by_cases hx : p.1 = x
    · simp [alookup, hx] at h ⊢; exact h
    · simp [alookup, hx] at h ⊢; exact ih h

theorem alookup_append_right {x : String} {a : Entries}
    (h : alookup x a = none) (b : Entries) : alookup x (a ++ b) = alookup x b := by
  induction a with
  | nil => simp
  | cons p t ih =>
    by_cases hx : p.1 = x
    · simp [alookup, hx] at h
    · simp [alookup, hx] at h ⊢; exact ih h

theorem alookup_append_middle_ne {x k : String} {v : Json} (a b : Entries)
    (h : k ≠ x) : alookup x (a ++ (k, v) :: b) = alookup x (a ++ b) := by
  induction a with
  | nil => simp [alookup, h]
  | cons p t ih =>
    by_cases hx : p.1 = x
    · simp [alookup, hx]
    · simp [alookup, hx]; exact ih

theorem alookup_some_split {x : String} {v : Json} {l : Entries}
    (h : alookup x l = some v) :
    ∃ a b, l = a ++ (x, v) :: b ∧ alookup x a = none := by
  induction l with
  | nil => simp at h
  | cons p t ih =>
    by_cases hx : p.1 = x
    · refine ⟨[], t, ?_, rfl⟩
      simp [alookup, hx] at h
      rcases p with ⟨k, w⟩
      simp_all
    · simp [alookup, hx] at h
      rcases ih h with ⟨a, b, rfl, ha⟩
      exact ⟨p :: a, b, rfl, by simp [alookup, hx, ha]⟩

theorem alookup_map_val (x : String) (f : Json → Json) (l : Entries) :
    alookup x (l.map (fun p => (p.1, f p.2))) = (alookup x l).map f := by
  induction l with
  | nil => simp
  | cons p t ih =>
    by_cases hx : p.1 = x
    · simp [alookup, hx]
    · simp [alookup, hx, ih]

theorem alookup_filter_pos {x : String} (f : String × Json → Bool) (l : Entries)
    (hf : ∀ p : String × Json, p.1 = x → f p = true) :
    alookup x (l.filter f) = alookup x l := by
  induction l with
  | nil => simp
  | cons p t ih =>
    by_cases hx : p.1 = x
    · rw [List.filter_cons, hf p hx]
      simp [alookup, hx]
    · rw [List.filter_cons]
      cases hfp : f p
      · simpa [alookup, hx] using ih
      · simpa [alookup, hx] using ih

theorem alookup_filter_neg {x : String} (f : String × Json → Bool) (l : Entries)
    (hf : ∀ p : String × Json, p.1 = x → f p = false) :
    alookup x (l.filter f) = none := by
  induction l with
  | nil => simp
  | cons p t ih =>
    by_cases hx : p.1 = x
    · rw [List.filter_cons, hf p hx]
      simpa using ih
    · rw [List.filter_cons]
      cases hfp : f p
      · simpa using ih
      · simpa [alookup, hx] using ih

theorem keysOf_filterMap_keyPres (g : String → Json → Option Json) (l : Entries) :
    keysOf (l.filterMap (fun p => (g p.1 p.2).map (fun w => (p.1, w)))) ⊆ keysOf l := by
  induction l with
  | nil => simp [keysOf]
  | cons p t ih =>
    rw [List.filterMap_cons]
    cases hg : (g p.1 p.2).map (fun w => (p.1, w)) with
    | none =>
      intro y hy
      exact List.mem_cons_of_mem _ (ih hy)
    | some q =>
      rcases Option.map_eq_some'.1 hg with ⟨w, _, rfl⟩
      intro y hy
      simp [keysOf] at hy ⊢
      rcases hy with hy | hy
      · exact Or.inl hy
      · exact Or.inr (by simpa [keysOf] using ih (by simpa [keysOf] using hy))

theorem nodup_keys_cons {p : String × Json} {t : Entries}
    (nd : (keysOf (p :: t)).Nodup) : p.1 ∉ keysOf t ∧ (keysOf t).Nodup := by
  have : (p.1 :: keysOf t).Nodup := by simpa [keysOf] using nd
  exact ⟨(List.nodup_cons.1 this).1, (List.nodup_cons.1 this).2⟩

theorem alookup_filterMap_keyPres {x : String} (g : String → Json → Option Json)
    (l : Entries) (nd : (keysOf l).Nodup) :
    alookup x (l.filterMap (fun p => (g p.1 p.2).map (fun w => (p.1, w)))) =
      (alookup x l).bind (g x) := by
  induction l with
  | nil => simp
  | cons p t ih =>
    have hpt : p.1 ∉ keysOf t := (nodup_keys_cons nd).1
    have ndt : (keysOf t).Nodup := (nodup_keys_cons nd).2
    rw [List.filterMap_cons]
    by_cases hx : p.1 = x
    · subst hx
      cases hg : g p.1 p.2 with
      | none =>
        have hnone :
            alookup p.1 (t.filterMap (fun p => (g p.1 p.2).map (fun w => (p.1, w)))) = none := by
          rw [alookup_eq_none_iff]
          intro hmem
          exact hpt (keysOf_filterMap_keyPres g t hmem)
        simp only [Option.map_none']
        rw [alookup_cons_self, Option.some_bind, hg, hnone]
      | some w =>
        simp only [Option.map_some']
        rw [alookup_cons_self, alookup_cons_self, Option.some_bind, hg]
    · cases hg : g p.1 p.2 with
      | none =>
        simp only [Option.map_none']
        rw [alookup_cons_ne x p t hx, ih ndt]
      | some w =>
        simp only [Option.map_some']
        rw [alookup_cons_ne x p t hx]
        rw [alookup_cons_ne x (p.1, w) _ hx, ih ndt]

theorem ainsert_of_not_mem {x : String} {l : Entries} (h : x ∉ keysOf l) (v : Json) :
    ainsert x v l = l ++ [(x, v)] := by
  induction l with
  | nil => rfl
  | cons p t ih =>
    simp [keysOf] at h
    push_neg at h
    simp [ainsert, Ne.symm h.1, ih (by simpa [keysOf] using h.2)]

theorem alookup_ainsert_self (x : String) (v : Json) (l : Entries) :
    alookup x (ainsert x v l) = some v := by
  induction l with
  | nil => simp [ainsert]
  | cons p t ih =>
    by_cases hx : p.1 = x
    · simp [ainsert, hx]
    · simp [ainsert, alookup, hx, ih]

theorem alookup_ainsert_ne {x y : String} (h : y ≠ x) (v : Json) (l : Entries) :
    alookup x (ainsert y v l) = alookup x l := by
  induction l with
  | nil => simp [ainsert, alookup, h]
  | cons p t ih =>
    by_cases hy : p.1 = y
    · have hpx : p.1 ≠ x := by rw [hy]; exact h
      rw [ainsert, if_pos hy]
      rw [alookup_cons_ne x (y, v) t h]
      rw [alookup_cons_ne x p t hpx]
    · rw [ainsert, if_neg hy]
      rw [alookup_cons, alookup_cons, ih]

theorem keysOf_ainsert_mem {x : String} {l : Entries} (h : x ∈ keysOf l) (v : Json) :
    keysOf (ainsert x v l) = keysOf l := by
  induction l with
  | nil => simp [keysOf] at h
  | cons p t ih =>
    by_cases hx : p.1 = x
    · rw [ainsert, if_pos hx, keysOf, keysOf, List.map_cons, List.map_cons]
      simp [hx]
    · have ht : x ∈ keysOf t := by
        rcases mem_keysOf_cons.1 h with he | hm
        · exact absurd he hx
        · exact hm
      rw [ainsert, if_neg hx, keysOf, List.map_cons]
      rw [keysOf, List.map_cons]
      have := ih ht
      rw [keysOf] at this
      rw [this]
      rfl

theorem strLeB_total (a b : List Char) : strLeB a b = true ∨ strLeB b a = true := by
  induction a generalizing b with
  | nil => exact Or.inl rfl
  | cons x as ih =>
    cases b with
    | nil => exact Or.inr rfl
    | cons y bs =>
      by_cases h1 : x.toNat < y.toNat
      · exact Or.inl (by simp [strLeB, h1])
      · by_cases h2 : y.toNat < x.toNat
        · exact Or.inr (by simp [strLeB, h2])
        · rcases ih bs with h | h
          · exact Or.inl (by simp [strLeB, h1, h2, h])
          · exact Or.inr (by simp [strLeB, h1, h2, h])

theorem strLeB_trans {a b c : List Char} (h1 : strLeB a b = true)
    (h2 : strLeB b c = true) : strLeB a c = true := by
  induction a generalizing b c with
  | nil => rfl
  | cons x as ih =>
    cases b with
    | nil => simp [strLeB] at h1
    | cons y bs =>
      cases c with
      | nil => simp [strLeB] at h2
      | cons z cs =>
        simp only [strLeB] at h1 h2 ⊢
        by_cases hxy : x.toNat < y.toNat
        · by_cases hyz : y.toNat < z.toNat
          · rw [if_pos (Nat.lt_trans hxy hyz)]
          · by_cases hzy : z.toNat < y.toNat
            · rw [if_neg hyz, if_pos hzy] at h2
              exact absurd h2 (by simp)
            · have hyez : y.toNat = z.toNat :=
                Nat.le_antisymm (Nat.le_of_not_lt hzy) (Nat.le_of_not_lt hyz)
              rw [if_pos (hyez ▸ hxy)]
        · by_cases hyx : y.toNat < x.toNat
          · rw [if_neg hxy, if_pos hyx] at h1
            exact absurd h1 (by simp)
          · have hxey : x.toNat = y.toNat :=
              Nat.le_antisymm (Nat.le_of_not_lt hyx) (Nat.le_of_not_lt hxy)
            rw [if_neg hxy, if_neg hyx] at h1
            by_cases hyz : y.toNat < z.toNat
            · rw [if_pos (hxey ▸ hyz)]
            · by_cases hzy : z.toNat < y.toNat
              · rw [if_neg hyz, if_pos hzy] at h2
                exact absurd h2 (by simp)
              · have hyez : y.toNat = z.toNat :=
                  Nat.le_antisymm (Nat.le_of_not_lt hzy) (Nat.le_of_not_lt hyz)
                rw [if_neg hyz, if_neg hzy] at h2
                have hxez : x.toNat = z.toNat := hxey.trans hyez
                have hxz : ¬x.toNat < z.toNat := by rw [hxez]; exact Nat.lt_irrefl _
                have hzx : ¬z.toNat < x.toNat := by rw [hxez]; exact Nat.lt_irrefl _
                rw [if_neg hxz, if_neg hzx]
                exact ih h1 h2

theorem strLeB_antisymm {a b : List Char} (h1 : strLeB a b = true)
    (h2 : strLeB b a = true) : a = b := by
  induction a generalizing b with
  | nil =>
    cases b with
    | nil => rfl
    | cons y bs => simp [strLeB] at h2
  | cons x as ih =>
    cases b with
    | nil => simp [strLeB] at h1
    | cons y bs =>
      simp only [strLeB] at h1 h2
      by_cases hxy : x.toNat < y.toNat
      · rw [if_neg (by omega : ¬y.toNat < x.toNat), if_pos hxy] at h2
        exact absurd h2 (by simp)
      · by_cases hyx : y.toNat < x.toNat
        · rw [if_neg hxy, if_pos hyx] at h1
          exact absurd h1 (by simp)
        · rw [if_neg hxy, if_neg hyx] at h1
          rw [if_neg hyx, if_neg hxy] at h2
          have hv : x.toNat = y.toNat :=
            Nat.le_antisymm (Nat.le_of_not_lt hyx) (Nat.le_of_not_lt hxy)
          have hx : x = y := Char.eq_of_val_eq (UInt32.toNat.inj hv)
          rw [hx, ih h1 h2]

theorem keyLeB_total (p q : String × Json) : keyLeB p q = true ∨ keyLeB q p = true :=
  strLeB_total p.1.data q.1.data

theorem keyLeB_trans {p q r : String × Json} (h1 : keyLeB p q = true)
    (h2 : keyLeB q r = true) : keyLeB p r = true := strLeB_trans h1 h2

theorem keyLeB_key_eq {p q : String × Json} (h1 : keyLeB p q = true)
    (h2 : keyLeB q p = true) : p.1 = q.1 := by
  have hd : p.1.data = q.1.data := strLeB_antisymm h1 h2
  cases hp : p.1 with
  | mk d1 =>
    cases hq : q.1 with
    | mk d2 =>
      rw [hp, hq] at hd
      simp at hd
      rw [hd]

theorem insEntry_perm (p : String × Json) (l : Entries) :
    List.Perm (insEntry p l) (p :: l) := by
  induction l with
  | nil => exact List.Perm.refl _
  | cons q t ih =>
    by_cases h : keyLeB p q
    · rw [insEntry, if_pos h]
    · rw [insEntry, if_neg h]
      exact (ih.cons q).trans (List.Perm.swap p q t)

theorem sortEntries_perm (l : Entries) : List.Perm (sortEntries l) l := by
  induction l with
  | nil => exact List.Perm.refl _
  | cons p t ih =>
    exact (insEntry_perm p (sortEntries t)).trans (ih.cons p)

theorem insEntry_sorted {p : String × Json} {l : Entries} (h : EntSorted l) :
    EntSorted (insEntry p l) := by
  induction l with
  | nil => simp [insEntry, EntSorted]
  | cons q t ih =>
    by_cases hle : keyLeB p q
    · rw [insEntry, if_pos hle]
      rw [EntSorted, List.pairwise_cons]
      refine ⟨?_, h⟩
      intro r hr
      rcases List.mem_cons.1 hr with he | hm
      · rw [he]; exact hle
      · exact keyLeB_trans hle ((List.pairwise_cons.1 h).1 r hm)
    · rw [insEntry, if_neg hle]
      have hqp : keyLeB q p = true := by
        rcases keyLeB_total p q with hh | hh
        · exact absurd hh hle
        · exact hh
      rw [EntSorted, List.pairwise_cons]
      constructor
      · intro r hr
        have hr2 := (insEntry_perm p t).mem_iff.1 hr
        rcases List.mem_cons.1 hr2 with he | hm
        · rw [he]; exact hqp
        · exact (List.pairwise_cons.1 h).1 r hm
      · exact ih (List.pairwise_cons.1 h).2

theorem sortEntries_sorted (l : Entries) : EntSorted (sortEntries l) := by
  induction l with
  | nil => simp [sortEntries, EntSorted]
  | cons p t ih => exact insEntry_sorted ih

theorem keysOf_perm_of_perm {l l' : Entries} (h : List.Perm l l') :
    List.Perm (keysOf l) (keysOf l') := h.map Prod.fst

theorem eq_of_perm_of_sorted {l l' : Entries} (hperm : List.Perm l l')
    (hs : EntSorted l) (hs' : EntSorted l') (nd : (keysOf l).Nodup) : l = l' := by
  induction l generalizing l' with
  | nil => exact List.Perm.nil_eq hperm
  | cons p t ih =>
    cases l' with
    | nil => exact absurd hperm.symm (by simp)
    | cons q t' =>
      have hpq : p = q := by
        have hpmem : p ∈ q :: t' := hperm.mem_iff.1 (List.mem_cons_self p t)
        have hqmem : q ∈ p :: t := hperm.symm.mem_iff.1 (List.mem_cons_self q t')
        rcases List.mem_cons.1 hpmem with he | hp'
        · exact he
        · rcases List.mem_cons.1 hqmem with he | hq'
          · exact he.symm
          · have h1 : keyLeB p q = true := (List.pairwise_cons.1 hs).1 q hq'
            have h2 : keyLeB q p = true := (List.pairwise_cons.1 hs').1 p hp'
            have hkey : p.1 = q.1 := keyLeB_key_eq h1 h2
            have hnd := (nodup_keys_cons nd).1
            exact absurd (hkey ▸ (List.mem_map_of_mem Prod.fst hq') : p.1 ∈ keysOf t) hnd
      subst hpq
      have htperm : List.Perm t t' := hperm.cons_inv
      have := ih htperm (List.pairwise_cons.1 hs).2 (List.pairwise_cons.1 hs').2
        (nodup_keys_cons nd).2
      rw [this]

theorem perm_of_alookup_eq {l l' : Entries} (nd : (keysOf l).Nodup)
    (nd' : (keysOf l').Nodup) (h : ∀ x, alookup x l = alookup x l') :
    List.Perm l l' := by
  induction l generalizing l' with
  | nil =>
    cases l' with
    | nil => rfl
    | cons q t' =>
      have := h q.1
      rw [alookup_nil] at this
      rw [alookup_cons, if_pos rfl] at this
      cases this
  | cons p t ih =>
    have hp : alookup p.1 l' = some p.2 := by
      rw [← h p.1]
      exact alookup_cons_self p.1 p.2 t
    rcases alookup_some_split hp with ⟨a, b, rfl, ha⟩
    have hpa : p.1 ∉ keysOf a := (alookup_eq_none_iff p.1 a).1 ha
    have hndmid : (keysOf (a ++ (p.1, p.2) :: b)).Nodup := nd'
    have hpb : p.1 ∉ keysOf b := by
      have : (keysOf a ++ p.1 :: keysOf b).Nodup := by
        simpa [keysOf] using hndmid
      have h2 := (List.nodup_append.1 this).2.1
      exact (List.nodup_cons.1 h2).1
    have hndab : (keysOf (a ++ b)).Nodup := by
      have : (keysOf a ++ p.1 :: keysOf b).Nodup := by
        simpa [keysOf] using hndmid
      rcases List.nodup_append.1 this with ⟨h1, h2, h3⟩
      have : (keysOf a ++ keysOf b).Nodup := by
        rw [List.nodup_append]
        refine ⟨h1, (List.nodup_cons.1 h2).2, ?_⟩
        intro y hy1 hy2
        exact h3 hy1 (List.mem_cons_of_mem _ hy2)
      simpa [keysOf] using this
    have htail : ∀ x, alookup x t = alookup x (a ++ b) := by
      intro y
      by_cases hy : y = p.1
      · rw [hy]
        have h1 : alookup p.1 t = none := (alookup_eq_none_iff _ t).2 (nodup_keys_cons nd).1
        have h2 : alookup p.1 (a ++ b) = none := by
          rw [alookup_append_right ha]
          exact (alookup_eq_none_iff _ b).2 hpb
        rw [h1, h2]
      · have hys := h y
        rw [alookup_cons_ne y p t (fun he => hy he.symm)] at hys
        rw [hys]
        exact alookup_append_middle_ne a b (fun he => hy he.symm)
    have hperm : List.Perm t (a ++ b) := ih (nodup_keys_cons nd).2 hndab htail
    exact (hperm.cons p).trans (List.perm_middle).symm

/-- `sortEntries` sends entry lists with the same key set (no duplicate
keys) and the same lookup function to the same sorted list. -/
theorem sortEntries_eq_of_alookup_eq {l l' : Entries} (nd : (keysOf l).Nodup)
    (nd' : (keysOf l').Nodup) (h : ∀ x, alookup x l = alookup x l') :
    sortEntries l = sortEntries l' := by
  have hperm : List.Perm (sortEntries l) (sortEntries l') :=
    ((sortEntries_perm l).trans (perm_of_alookup_eq nd nd' h)).trans (sortEntries_perm l').symm
  exact eq_of_perm_of_sorted hperm (sortEntries_sorted l) (sortEntries_sorted l')
    (((keysOf_perm_of_perm (sortEntries_perm l)).nodup_iff).2 nd)

theorem jsortEntries_eq_map (l : Entries) :
    jsortEntries l = l.map (fun p => (p.1, jsort p.2)) := by
  induction l with
  | nil => rfl
  | cons p t ih => rw [jsortEntries, ih, List.map_cons]

theorem keysOf_jsortEntries (l : Entries) : keysOf (jsortEntries l) = keysOf l := by
  induction l with
  | nil => rfl
  | cons p t ih =>
    rw [jsortEntries]
    show p.1 :: keysOf (jsortEntries t) = keysOf (p :: t)
    rw [ih]
    rfl

theorem alookup_jsortEntries (x : String) (l : Entries) :
    alookup x (jsortEntries l) = (alookup x l).map jsort := by
  rw [jsortEntries_eq_map]
  exact alookup_map_val x jsort l

/-- The object-level working lemma: two objects with duplicate-free keys
and the same per-key values up to `jsort` have the same `jsort` normal
form. -/
theorem jsort_obj_eq_of_alookup_eq {l l' : Entries} (nd : (keysOf l).Nodup)
    (nd' : (keysOf l').Nodup)
    (h : ∀ x, (alookup x l).map jsort = (alookup x l').map jsort) :
    jsort (.obj l) = jsort (.obj l') := by
  rw [jsort, jsort]
  have : sortEntries (jsortEntries l) = sortEntries (jsortEntries l') := by
    apply sortEntries_eq_of_alookup_eq
    · rw [keysOf_jsortEntries]; exact nd
    · rw [keysOf_jsortEntries]; exact nd'
    · intro x
      rw [alookup_jsortEntries, alookup_jsortEntries]
      exact h x
  rw [this]

@[simp]
theorem optOr_some {α : Type} (x : α) (y : Option α) : optOr (some x) y = some x := rfl

@[simp]
theorem optOr_none {α : Type} (y : Option α) : optOr none y = y := rfl

@[simp]
theorem optOr_right_none {α : Type} (x : Option α) : optOr x none = x := by
  cases x <;> rfl

@[simp]
theorem ifLet_some {α : Type} (x : α) (b : ContextBuilder)
    (f : ContextBuilder → α → ContextBuilder) : ifLet (some x) b f = f b x := rfl

@[simp]
theorem ifLet_none {α : Type} (b : ContextBuilder)
    (f : ContextBuilder → α → ContextBuilder) : ifLet none b f = b := rfl

@[simp]
theorem ifLet_set_anonymous (o : Option Bool) (b : ContextBuilder) :
    ifLet o b ContextBuilder.set_anonymous = { b with anonymous := o.getD b.anonymous } := by
  cases o <;> rfl

@[simp]
theorem ifLet_set_secondary (o : Option String) (b : ContextBuilder) :
    ifLet o b ContextBuilder.set_secondary = { b with secondary := optOr o b.secondary } := by
  cases o <;> rfl

@[simp]
theorem ifLet_set_name (o : Option String) (b : ContextBuilder) :
    ifLet o b ContextBuilder.set_name = { b with name := optOr o b.name } := by
  cases o <;> rfl

@[simp]
theorem ifLet_set_string (k : String) (o : Option String) (b : ContextBuilder) :
    ifLet o b (fun b x => b.set_string k x) =
      { b with attributes := setStrAttr k o b.attributes } := by
  cases o <;> rfl

theorem foldl_add_private (l : List String) (b : ContextBuilder) :
    l.foldl (fun b a => b.add_private_attribute a) b =
      { b with privList := b.privList ++ l } := by
  induction l generalizing b with
  | nil => simp
  | cons x t ih =>
    rw [List.foldl_cons, ih]
    simp [ContextBuilder.add_private_attribute]

theorem foldl_set_value (m : Entries) (b : ContextBuilder) :
    m.foldl (fun b p => b.set_value p.1 p.2) b =
      { b with attributes := applyEntries m b.attributes } := by
  induction m generalizing b with
  | nil => simp [applyEntries]
  | cons x t ih =>
    rw [List.foldl_cons, ih]
    simp [ContextBuilder.set_value, applyEntries]

theorem foldl_custom (m : Entries) (b : ContextBuilder) :
    m.foldl (fun b p =>
        if should_skip_custom_attribute p.1 then b else b.set_value p.1 p.2) b =
      { b with attributes := applyCustom m b.attributes } := by
  induction m generalizing b with
  | nil => simp [applyCustom]
  | cons x t ih =>
    rw [List.foldl_cons]
    by_cases hs : should_skip_custom_attribute x.1
    · rw [if_pos hs, ih]
      simp [applyCustom, hs]
    · rw [if_neg hs, ih]
      simp [ContextBuilder.set_value, applyCustom, hs]

@[simp]
theorem ifLet_add_privates (o : Option (List String)) (b : ContextBuilder) :
    ifLet o b (fun b l => l.foldl (fun b a => b.add_private_attribute a) b) =
      { b with privList := b.privList ++ o.getD [] } := by
  cases o with
  | none => simp [ifLet]
  | some l => simp [ifLet, foldl_add_private]

@[simp]
theorem ifLet_custom (o : Option Entries) (b : ContextBuilder) :
    ifLet o b (fun b m =>
        m.foldl (fun b p =>
          if should_skip_custom_attribute p.1 then b else b.set_value p.1 p.2) b) =
      { b with attributes := customApply o b.attributes } := by
  cases o with
  | none => simp [ifLet, customApply]
  | some m => simp [ifLet, foldl_custom, customApply]

@[simp]
theorem ifLet_meta (o : Option Meta) (b : ContextBuilder) :
    ifLet o b (fun b m =>
        let b := ifLet m.secondary b ContextBuilder.set_secondary
        ifLet m.private_attributes b (fun b l =>
          l.foldl (fun b a => b.add_private_attribute a) b)) =
      { b with secondary := optOr (o.bind Meta.secondary) b.secondary,
               privList := b.privList ++ (o.bind Meta.private_attributes).getD [] } := by
  cases o with
  | none => simp
  | some m =>
    rw [ifLet_some]
    simp only [ifLet_set_secondary, ifLet_add_privates, Option.some_bind]

/-- Field-level characterization of `build_context`. -/
theorem build_context_spec (b : ContextBuilder) (c : SingleKindContext) :
    build_context b c =
      { b with attributes := applyEntries c.attributes b.attributes,
               anonymous := c.anonymous.getD b.anonymous,
               name := optOr c.name b.name,
               secondary := optOr (c.meta.bind Meta.secondary) b.secondary,
               privList := b.privList ++ (c.meta.bind Meta.private_attributes).getD [] } := by
  rw [build_context]
  simp only [foldl_set_value, ifLet_set_anonymous, ifLet_set_name, ifLet_meta]

/-- Field-level characterization of `build_context_from_implicit_user`. -/
theorem bcfiu_spec (b : ContextBuilder) (u : UserFormat) :
    build_context_from_implicit_user b u =
      { b with anonymous := u.anonymous.getD b.anonymous,
               secondary := optOr u.secondary b.secondary,
               name := optOr u.name b.name,
               attributes := customApply u.custom (setStrAttr "ip" u.ip
                 (setStrAttr "email" u.email (setStrAttr "country" u.country
                   (setStrAttr "lastName" u.last_name (setStrAttr "firstName" u.first_name
                     (setStrAttr "avatar" u.avatar b.attributes)))))),
               privList := b.privList ++ u.private_attribute_names.getD [] } := by
  rw [build_context_from_implicit_user]
  simp only [ifLet_set_anonymous, ifLet_set_secondary, ifLet_set_name, ifLet_set_string,
    ifLet_custom, ifLet_add_privates]

/-- Converting a legacy user always succeeds, with kind `user`, the key
taken verbatim (empty allowed), the projection table applied to the
attributes and the meta fields. -/
theorem implicit_build_result (u : UserFormat) :
    contextFromVariant (.implicit u) =
      .ok (Context.single ⟨"user", u.key, u.name, u.anonymous.getD false,
        legacyAttrs u, u.secondary, privOf (u.private_attribute_names.getD [])⟩) := by
  rw [contextFromVariant]
  rw [bcfiu_spec]
  simp [ContextBuilder.new, ContextBuilder.allow_empty_key, ContextBuilder.build,
    kindValidB, legacyAttrs, privOf]
  rfl

theorem buildSingle_ok {k : String} {c : SingleKindContext}
    (hk : kindValidB k = true) (hkey : c.key ≠ "") :
    ((build_context (ContextBuilder.new c.key) c).set_kind k).build =
      .ok (nestedResult k c) := by
  rw [build_context_spec]
  simp [ContextBuilder.new, ContextBuilder.set_kind, ContextBuilder.build, hk, hkey,
    nestedResult, privOf]

theorem buildSingle_empty_key {k : String} {c : SingleKindContext} (hkey : c.key = "") :
    ((build_context (ContextBuilder.new c.key) c).set_kind k).build = .error msgEmptyKey := by
  rw [build_context_spec]
  simp [ContextBuilder.new, ContextBuilder.set_kind, ContextBuilder.build, hkey]

theorem multi_fold_contexts (cs : List SingleContext) (l : List SingleContext) :
    (cs.foldl (fun mb c => mb.add_context c) (MultiContextBuilder.mk l)).contexts =
      l ++ cs := by
  induction cs generalizing l with
  | nil => simp
  | cons c t ih =>
    rw [List.foldl_cons]
    rw [show (MultiContextBuilder.mk l).add_context c = MultiContextBuilder.mk (l ++ [c]) from rfl]
    rw [ih]
    simp

theorem contextFromVariant_multi (m : MultiKindContext) :
    contextFromVariant (.multi m) =
      (m.contexts.mapM buildNested).bind (fun cs =>
        if cs.isEmpty then .error msgEmptyMulti else .ok (Context.multi cs)) := by
  rw [contextFromVariant]
  cases hm : m.contexts.mapM buildNested with
  | error e =>
    rw [show m.contexts.mapM (fun p =>
        ((build_context (ContextBuilder.new p.2.key) p.2).set_kind p.1).build) =
        m.contexts.mapM buildNested from rfl, hm]
    rfl
  | ok cs =>
    rw [show m.contexts.mapM (fun p =>
        ((build_context (ContextBuilder.new p.2.key) p.2).set_kind p.1).build) =
        m.contexts.mapM buildNested from rfl, hm]
    show (cs.foldl (fun mb c => mb.add_context c) MultiContextBuilder.new).build = _
    rw [MultiContextBuilder.build]
    rw [show MultiContextBuilder.new = MultiContextBuilder.mk [] from rfl]
    rw [multi_fold_contexts]
    simp
    rfl

theorem applyEntries_disjoint (m a : Entries) (nd : (keysOf m).Nodup)
    (hdisj : ∀ k ∈ keysOf m, k ∉ keysOf a) : applyEntries m a = a ++ m := by
  induction m generalizing a with
  | nil => simp [applyEntries]
  | cons p t ih =>
    have hpa : p.1 ∉ keysOf a := hdisj p.1 (mem_keysOf_cons.2 (Or.inl rfl))
    have hdisj2 : ∀ k ∈ keysOf t, k ∉ keysOf (a ++ [(p.1, p.2)]) := by
      intro k hk hmem
      rw [show keysOf (a ++ [(p.1, p.2)]) = keysOf a ++ [p.1] by simp [keysOf]] at hmem
      rcases List.mem_append.1 hmem with hm | hm
      · exact hdisj k (mem_keysOf_cons.2 (Or.inr hk)) hm
      · rcases List.mem_singleton.1 hm with rfl
        exact (nodup_keys_cons nd).1 hk
    rw [applyEntries, List.foldl_cons]
    rw [show (t.foldl (fun a p => ainsert p.1 p.2 a) (ainsert p.1 p.2 a)) =
        applyEntries t (ainsert p.1 p.2 a) from rfl]
    rw [ainsert_of_not_mem hpa]
    rw [ih (a ++ [(p.1, p.2)]) (nodup_keys_cons nd).2 hdisj2]
    simp

theorem applyEntries_nil (m : Entries) (nd : (keysOf m).Nodup) :
    applyEntries m [] = m := by
  rw [applyEntries_disjoint m [] nd (by intro k _; simp [keysOf])]
  simp

/-! ### Exception plumbing -/
theorem except_bind_ok {α β : Type} {x : Except String α} {f : α → Except String β}
    {b : β} (h : x.bind f = .ok b) : ∃ a, x = .ok a ∧ f a = .ok b := by
  cases x with
  | error e => exact absurd h (by simp [Except.bind])
  | ok a => exact ⟨a, rfl, h⟩

theorem except_map_ok {α β : Type} {x : Except String α} {f : α → β} {b : β}
    (h : x.map f = .ok b) : ∃ a, x = .ok a ∧ f a = b := by
  cases x with
  | error e => exact absurd h (by simp [Except.map])
  | ok a =>
    refine ⟨a, rfl, ?_⟩
    simpa [Except.map] using h

theorem except_bind_error {α β : Type} (x : Except String α) (f : α → Except String β)
    {e : String} (h : x = .error e) : x.bind f = .error e := by
  rw [h]; rfl

theorem serialize_single_kind_eq (sk : SingleKindContext) :
    serialize_single_kind sk =
      ("key", Json.str sk.key) ::
        (nameEnt sk.name ++ anonEnt sk.anonymous ++ sk.attributes ++ metaEnt sk.meta) := rfl

theorem alookup_append (x : String) (a b : Entries) :
    alookup x (a ++ b) = optOr (alookup x a) (alookup x b) := by
  cases h : alookup x a with
  | some v => rw [alookup_append_left h, optOr_some]
  | none => rw [alookup_append_right h, optOr_none]

theorem alookup_nameEnt_ne (x : String) (hx : x ≠ "name") (o : Option String) :
    alookup x (nameEnt o) = none := by
  cases o with
  | none => rfl
  | some n =>
    show alookup x [("name", Json.str n)] = none
    rw [alookup_cons_ne x _ _ (fun h => hx h.symm)]
    rfl

theorem alookup_nameEnt_self (o : Option String) :
    alookup "name" (nameEnt o) = o.map Json.str := by
  cases o <;> rfl

theorem alookup_anonEnt_ne (x : String) (hx : x ≠ "anonymous") (o : Option Bool) :
    alookup x (anonEnt o) = none := by
  cases o with
  | none => rfl
  | some b =>
    cases b with
    | false => rfl
    | true =>
      show alookup x [("anonymous", Json.bool true)] = none
      rw [alookup_cons_ne x _ _ (fun h => hx h.symm)]
      rfl

theorem alookup_anonEnt_self (o : Option Bool) :
    alookup "anonymous" (anonEnt o) =
      if is_false_bool_option o then none else o.map Json.bool := by
  cases o with
  | none => rfl
  | some b => cases b <;> rfl

theorem alookup_metaEnt_ne (x : String) (hx : x ≠ "_meta") (o : Option Meta) :
    alookup x (metaEnt o) = none := by
  rcases o with _ | m
  · rfl
  · rw [metaEnt]
    by_cases hf : is_none_meta_option (some m)
    · rw [if_pos hf]; rfl
    · rw [if_neg hf]
      show alookup x [("_meta", Json.obj (serialize_meta m))] = none
      rw [alookup_cons_ne x _ _ (fun h => hx h.symm)]
      rfl

theorem alookup_metaEnt_self (o : Option Meta) :
    alookup "_meta" (metaEnt o) =
      if is_none_meta_option o then none
      else o.map (fun m => Json.obj (serialize_meta m)) := by
  rcases o with _ | m
  · rfl
  · rw [metaEnt]
    by_cases hf : is_none_meta_option (some m)
    · rw [if_pos hf, if_pos hf]
      rfl
    · rw [if_neg hf, if_neg hf]
      rfl

theorem alookup_none_of_all {l : Entries} {x : String}
    (h : l.all (fun p => !(consumedKeys true).contains p.1) = true)
    (hx : (consumedKeys true).contains x = true) : alookup x l = none := by
  rw [alookup_eq_none_iff]
  intro hmem
  rcases List.mem_map.1 hmem with ⟨p, hp, hpx⟩
  have := List.all_eq_true.1 h p hp
  rw [hpx] at this
  rw [hx] at this
  exact absurd this (by simp)

/-- Lookup of any of the five reserved keys in the serialized single-kind
entry list, for a context whose attributes avoid them. -/
theorem alookup_ssk_key (sk : SingleKindContext) :
    alookup "key" (serialize_single_kind sk) = some (Json.str sk.key) := by
  rw [serialize_single_kind_eq]
  exact alookup_cons_self _ _ _

/-! ### Claim theorems -/
/-- C7: encoding never emits the legacy shape — the projection of every
context (`ContextVariant.from_context`) is the multi or the standalone
single variant, never the implicit variant, so the fatal-error branch of
`serializeVariant` is unreachable and `encode` always yields JSON. -/
theorem c7_encode_never_legacy (c : Context) :
    (∀ u, ContextVariant.from_context c ≠ ContextVariant.implicit u) ∧
      ∃ j, encode c = some j := by
  cases c with
  | single s => exact ⟨fun u h => ContextVariant.noConfusion h, ⟨_, rfl⟩⟩
  | multi cs => exact ⟨fun u h => ContextVariant.noConfusion h, ⟨_, rfl⟩⟩

/-- C9: a JSON object whose `kind` is `multi` and which carries no other
field decodes to the `EmptyMulti` error and produces no context. -/
theorem c9_empty_multi_rejected (kvs : Entries)
    (hkind : alookup "kind" kvs = some (.str "multi"))
    (honly : ∀ p ∈ kvs, p.1 = "kind") :
    decode (.obj kvs) = .error msgEmptyMulti := by
  have hfilter : kvs.filter (fun p => !(p.1 = "kind")) = [] := by
    rw [List.filter_eq_nil_iff]
    intro p hp
    simp [honly p hp]
  rw [decode, decodeVariant, hkind]
  dsimp only
  rw [if_pos rfl]
  rw [parseMulti, hfilter]
  simp [contextFromVariant_multi, Except.map, Except.bind, buildNested, List.mapM.loop,
    MultiContextBuilder.build]
  rfl

/-- C6: the projector always populates `anonymous` and `_meta` in the
intermediate record, and the serializer omits `anonymous` exactly when the
context is not anonymous and omits `_meta` exactly when `secondary` is
absent and the private attributes are absent or empty. -/
theorem c6_anonymous_meta_omission (c : SingleContext)
    (h : c.attributes.all (fun p => !(consumedKeys true).contains p.1) = true) :
    (single_kind_context_from c).2.anonymous = some c.anonymous ∧
    (single_kind_context_from c).2.meta = some ⟨c.secondary, c.private_attributes⟩ ∧
    ((alookup "anonymous" (serialize_single_kind (single_kind_context_from c).2)).isSome ↔
      c.anonymous = true) ∧
    ((alookup "_meta" (serialize_single_kind (single_kind_context_from c).2)).isSome ↔
      ¬(c.secondary = none ∧
        (c.private_attributes = none ∨ c.private_attributes = some []))) := by
  refine ⟨rfl, rfl, ?_, ?_⟩
  · rw [serialize_single_kind_eq]
    rw [alookup_cons_ne _ _ _ (show ("key" : String) ≠ "anonymous" by decide)]
    rw [alookup_append, alookup_append, alookup_append]
    rw [alookup_nameEnt_ne "anonymous" (by decide), optOr_none]
    rw [alookup_anonEnt_self]
    show (optOr (optOr _ (alookup "anonymous" c.attributes)) _).isSome = true ↔ _
    rw [alookup_none_of_all h (by decide), optOr_right_none]
    rw [alookup_metaEnt_ne "anonymous" (by decide), optOr_right_none]
    cases hc : c.anonymous <;> simp [single_kind_context_from, is_false_bool_option, hc]
  · rw [serialize_single_kind_eq]
    rw [alookup_cons_ne _ _ _ (show ("key" : String) ≠ "_meta" by decide)]
    rw [alookup_append, alookup_append, alookup_append]
    rw [alookup_nameEnt_ne "_meta" (by decide), optOr_none]
    rw [alookup_anonEnt_ne "_meta" (by decide), optOr_none]
    show (optOr (alookup "_meta" c.attributes) _).isSome = true ↔ _
    rw [alookup_none_of_all h (by decide), optOr_none]
    rw [alookup_metaEnt_self]
    show ((if is_none_meta_option (some ⟨c.secondary, c.private_attributes⟩) then none
      else (some (⟨c.secondary, c.private_attributes⟩ : Meta)).map
        (fun m => Json.obj (serialize_meta m))).isSome) = true ↔ _
    rw [is_none_meta_option]
    cases hs : c.secondary with
    | some s => simp [is_empty_vec_option]
    | none =>
      cases hp : c.private_attributes with
      | none => simp [is_empty_vec_option]
      | some l => cases l <;> simp [is_empty_vec_option]

/-! ### Parse inversion lemmas -/
theorem parseKeyField_ok {o : Option Json} {s : String}
    (h : parseKeyField o = .ok s) : o = some (.str s) := by
  rcases o with _ | v
  · exact absurd h (by simp [parseKeyField])
  · cases v with
    | str s2 =>
      have h2 : s2 = s := by
        have := h
        simp [parseKeyField] at this
        exact this
      rw [h2]
    | null => exact absurd h (by simp [parseKeyField])
    | bool b => exact absurd h (by simp [parseKeyField])
    | num n => exact absurd h (by simp [parseKeyField])
    | arr l => exact absurd h (by simp [parseKeyField])
    | obj o2 => exact absurd h (by simp [parseKeyField])

theorem parseSingleKind_ok_fields {d : Bool} {kvs : Entries} {c : SingleKindContext}
    (h : parseSingleKind d kvs = .ok c) :
    alookup "key" kvs = some (.str c.key) ∧
    parseFieldOptString (alookup "name" kvs) = .ok c.name ∧
    parseFieldOptBool (alookup "anonymous" kvs) = .ok c.anonymous ∧
    parseOptMeta (alookup "_meta" kvs) = .ok c.meta ∧
    c.attributes = kvs.filter (fun p => !(consumedKeys d).contains p.1) := by
  rw [parseSingleKind] at h
  rcases except_bind_ok h with ⟨key, hkey, h⟩
  rcases except_bind_ok h with ⟨nm, hnm, h⟩
  rcases except_bind_ok h with ⟨an, han, h⟩
  rcases except_bind_ok h with ⟨mt, hmt, h⟩
  have hfields := Except.ok.inj h
  rw [← hfields]
  exact ⟨parseKeyField_ok hkey, hnm, han, hmt, rfl⟩

theorem parseSingleKind_error_of_empty_or_missing_key {d : Bool} {kvs : Entries}
    (h : alookup "key" kvs = none ∨ alookup "key" kvs = some (.str "")) :
    (∃ e, parseSingleKind d kvs = .error e) ∨
      ∃ c, parseSingleKind d kvs = .ok c ∧ c.key = "" := by
  cases hp : parseSingleKind d kvs with
  | error e => exact Or.inl ⟨e, rfl⟩
  | ok c =>
    rcases parseSingleKind_ok_fields hp with ⟨hkey, _, _, _, _⟩
    rcases h with h | h
    · rw [h] at hkey; exact absurd hkey (by simp)
    · rw [h] at hkey
      have : Json.str "" = Json.str c.key := Option.some.inj hkey
      exact Or.inr ⟨c, rfl, (Json.str.inj this).symm⟩

/-- C1: when the `kind` field is present but null, boolean, numeric, an
array, an object, empty, or the reserved word `kind`, decoding fails with
one of the `InvalidKind` error messages and produces no context. -/
theorem c1_invalid_kind_rejected (kvs : Entries) (v : Json)
    (hkind : alookup "kind" kvs = some v)
    (hv : v = .null ∨ (∃ b, v = .bool b) ∨ (∃ n, v = .num n) ∨
      (∃ l, v = .arr l) ∨ (∃ o, v = .obj o) ∨ v = .str "" ∨ v = .str "kind") :
    ∃ e, decode (.obj kvs) = .error e ∧ e ∈ invalidKindMsgs := by
  rcases hv with rfl | ⟨b, rfl⟩ | ⟨n, rfl⟩ | ⟨l, rfl⟩ | ⟨o, rfl⟩ | rfl | rfl
  · exact ⟨msgKindNull, by rw [decode, decodeVariant, hkind]; rfl, by decide⟩
  · exact ⟨msgKindNotString, by rw [decode, decodeVariant, hkind]; rfl, by decide⟩
  · exact ⟨msgKindNotString, by rw [decode, decodeVariant, hkind]; rfl, by decide⟩
  · exact ⟨msgKindNotString, by rw [decode, decodeVariant, hkind]; rfl, by decide⟩
  · exact ⟨msgKindNotString, by rw [decode, decodeVariant, hkind]; rfl, by decide⟩
  · exact ⟨msgKindEmpty, by rw [decode, decodeVariant, hkind]; rfl, by decide⟩
  · exact ⟨msgKindWord, by rw [decode, decodeVariant, hkind]; rfl, by decide⟩

/-- C1 witness. -/
theorem c1_invalid_kind_rejected_witness :
    ∃ e, decode (.obj [("kind", Json.null), ("key", Json.str "a")]) = .error e ∧
      e ∈ invalidKindMsgs :=
  c1_invalid_kind_rejected [("kind", Json.null), ("key", Json.str "a")] Json.null rfl
    (Or.inl rfl)

/-- C8: a modern single-kind input with a missing or empty `key` fails to
decode; decoding a legacy user never fails in the converter (the builder is
marked empty-key-allowed), and the empty-key legacy input decodes to a
context that encodes as an empty-key single-kind `user` context. -/
theorem c8_key_requirements :
    (∀ kvs s, alookup "kind" kvs = some (.str s) → s ≠ "multi" → s ≠ "" → s ≠ "kind" →
      (alookup "key" kvs = none ∨ alookup "key" kvs = some (.str "")) →
      ∃ e, decode (.obj kvs) = .error e) ∧
    (∀ u, ∃ C, contextFromVariant (ContextVariant.implicit u) = .ok C) ∧
    decode (.obj [("key", .str "")]) =
      .ok (Context.single ⟨"user", "", none, false, [], none, none⟩) ∧
    encode (Context.single ⟨"user", "", none, false, [], none, none⟩) =
      some (.obj [("kind", .str "user"), ("key", .str "")]) := by
  refine ⟨?_, ?_, rfl, rfl⟩
  · intro kvs s hkind hs1 hs2 hs3 hkey
    rw [decode, decodeVariant, hkind]
    dsimp only
    rw [if_neg hs1, if_neg hs2]
    rw [show kindFromString s = .ok s by rw [kindFromString, if_neg hs2, if_neg hs3]]
    rcases parseSingleKind_error_of_empty_or_missing_key (d := true) hkey with ⟨e, he⟩ | ⟨c, hc, hck⟩
    · exact ⟨e, by rw [he]; rfl⟩
    · refine ⟨msgEmptyKey, ?_⟩
      rw [hc]
      show contextFromVariant (ContextVariant.single ⟨s, c⟩) = .error msgEmptyKey
      rw [contextFromVariant]
      dsimp only
      rw [buildSingle_empty_key hck]
      rfl
  · intro u
    exact ⟨_, implicit_build_result u⟩

/-- C8 witness. -/
theorem c8_key_requirements_witness :
    ∃ e, decode (.obj [("kind", Json.str "user")]) = .error e :=
  c8_key_requirements.1 [("kind", Json.str "user")] "user" rfl (by decide) (by decide)
    (by decide) (Or.inl rfl)

/-- C9 witness. -/
theorem c9_empty_multi_rejected_witness :
    decode (.obj [("kind", Json.str "multi")]) = .error msgEmptyMulti :=
  c9_empty_multi_rejected [("kind", Json.str "multi")] rfl (by
    intro p hp
    rcases List.mem_singleton.1 hp with rfl
    rfl)

/-- C6 witness. -/
theorem c6_anonymous_meta_omission_witness :
    (alookup "_meta" (serialize_single_kind (single_kind_context_from
      ⟨"org", "k", none, true, [], some "s", none⟩).2)).isSome ↔
    ¬((some "s" : Option String) = none ∧
      ((none : Option (List String)) = none ∨ (none : Option (List String)) = some [])) :=
  (c6_anonymous_meta_omission ⟨"org", "k", none, true, [], some "s", none⟩ (by decide)).2.2.2

/-! ### Legacy attribute map lemmas -/
theorem alookup_setStrAttr_ne (k : String) (o : Option String) (a : Entries)
    {r : String} (h : k ≠ r) : alookup r (setStrAttr k o a) = alookup r a := by
  cases o with
  | none => rfl
  | some s => exact alookup_ainsert_ne h _ _

theorem alookup_applyCustom_reserved (m a : Entries) {r : String}
    (hr : should_skip_custom_attribute r = true) :
    alookup r (applyCustom m a) = alookup r a := by
  induction m generalizing a with
  | nil => rfl
  | cons p t ih =>
    rw [applyCustom, List.foldl_cons]
    by_cases hs : should_skip_custom_attribute p.1
    · rw [if_pos hs]
      exact ih a
    · rw [if_neg hs]
      have hne : p.1 ≠ r := fun he => hs (he ▸ hr)
      rw [show t.foldl (fun a p => if should_skip_custom_attribute p.1 then a
        else ainsert p.1 p.2 a) (ainsert p.1 p.2 a) = applyCustom t (ainsert p.1 p.2 a) from rfl]
      rw [ih (ainsert p.1 p.2 a)]
      exact alookup_ainsert_ne hne _ _

theorem alookup_applyCustom_not_mem (m a : Entries) {k : String}
    (hk : k ∉ keysOf m) : alookup k (applyCustom m a) = alookup k a := by
  induction m generalizing a with
  | nil => rfl
  | cons p t ih =>
    have hpk : p.1 ≠ k := fun he => hk (mem_keysOf_cons.2 (Or.inl he))
    have hkt : k ∉ keysOf t := fun hm => hk (mem_keysOf_cons.2 (Or.inr hm))
    rw [applyCustom, List.foldl_cons]
    by_cases hs : should_skip_custom_attribute p.1
    · rw [if_pos hs]
      exact ih a hkt
    · rw [if_neg hs]
      rw [show t.foldl (fun a p => if should_skip_custom_attribute p.1 then a
        else ainsert p.1 p.2 a) (ainsert p.1 p.2 a) = applyCustom t (ainsert p.1 p.2 a) from rfl]
      rw [ih (ainsert p.1 p.2 a) hkt]
      exact alookup_ainsert_ne hpk _ _

theorem alookup_applyCustom_mem (m a : Entries) {k : String} {v : Json}
    (hkv : (k, v) ∈ m) (hnd : (keysOf m).Nodup)
    (hns : should_skip_custom_attribute k = false) :
    alookup k (applyCustom m a) = some v := by
  induction m generalizing a with
  | nil => cases hkv
  | cons p t ih =>
    rw [applyCustom, List.foldl_cons]
    rcases List.mem_cons.1 hkv with he | hm
    · have hk1 : p.1 = k := by rw [← he]
      have hv1 : p.2 = v := by rw [← he]
      rw [if_neg (by rw [hk1, hns]; exact Bool.false_ne_true)]
      have hknt : k ∉ keysOf t := by
        rw [← hk1]
        exact (nodup_keys_cons hnd).1
      rw [show t.foldl (fun a p => if should_skip_custom_attribute p.1 then a
        else ainsert p.1 p.2 a) (ainsert p.1 p.2 a) = applyCustom t (ainsert p.1 p.2 a) from rfl]
      rw [alookup_applyCustom_not_mem t _ hknt]
      rw [hk1, hv1]
      exact alookup_ainsert_self k v a
    · by_cases hs : should_skip_custom_attribute p.1
      · rw [if_pos hs]
        exact ih _ hm (nodup_keys_cons hnd).2
      · rw [if_neg hs]
        rw [show t.foldl (fun a p => if should_skip_custom_attribute p.1 then a
          else ainsert p.1 p.2 a) (ainsert p.1 p.2 a) = applyCustom t (ainsert p.1 p.2 a) from rfl]
        exact ih _ hm (nodup_keys_cons hnd).2

theorem alookup_legacyAttrs_reserved (u : UserFormat) {r : String}
    (hr : should_skip_custom_attribute r = true) :
    alookup r (legacyAttrs u) = none := by
  have h5 : (((r = "kind" ∨ r = "key") ∨ r = "name") ∨ r = "anonymous") ∨ r = "_meta" := by
    rw [should_skip_custom_attribute] at hr
    simpa using hr
  have hips : ∀ k : String, k ∈ (["avatar", "firstName", "lastName", "country",
      "email", "ip"] : List String) → k ≠ r := by
    intro k hk
    rcases h5 with (((rfl | rfl) | rfl) | rfl) | rfl <;> (intro he; rw [he] at hk; simp at hk)
  rw [legacyAttrs]
  cases hc : u.custom with
  | none =>
    rw [customApply]
    rw [alookup_setStrAttr_ne _ _ _ (hips "ip" (by simp))]
    rw [alookup_setStrAttr_ne _ _ _ (hips "email" (by simp))]
    rw [alookup_setStrAttr_ne _ _ _ (hips "country" (by simp))]
    rw [alookup_setStrAttr_ne _ _ _ (hips "lastName" (by simp))]
    rw [alookup_setStrAttr_ne _ _ _ (hips "firstName" (by simp))]
    rw [alookup_setStrAttr_ne _ _ _ (hips "avatar" (by simp))]
    rfl
  | some m =>
    rw [customApply]
    rw [alookup_applyCustom_reserved m _ hr]
    rw [alookup_setStrAttr_ne _ _ _ (hips "ip" (by simp))]
    rw [alookup_setStrAttr_ne _ _ _ (hips "email" (by simp))]
    rw [alookup_setStrAttr_ne _ _ _ (hips "country" (by simp))]
    rw [alookup_setStrAttr_ne _ _ _ (hips "lastName" (by simp))]
    rw [alookup_setStrAttr_ne _ _ _ (hips "firstName" (by simp))]
    rw [alookup_setStrAttr_ne _ _ _ (hips "avatar" (by simp))]
    rfl

theorem applyCustom_eq_filter (m a : Entries) :
    applyCustom m a =
      applyCustom (m.filter (fun p => !should_skip_custom_attribute p.1)) a := by
  induction m generalizing a with
  | nil => rfl
  | cons p t ih =>
    rw [applyCustom, List.foldl_cons, List.filter_cons]
    by_cases hs : should_skip_custom_attribute p.1
    · rw [if_pos hs]
      rw [show (!should_skip_custom_attribute p.1) = false by rw [hs]; rfl]
      rw [if_neg (by simp)]
      exact ih a
    · rw [if_neg hs]
      rw [show (!should_skip_custom_attribute p.1) = true by
        rw [show should_skip_custom_attribute p.1 = false from Bool.eq_false_iff.2 hs]; rfl]
      rw [if_pos rfl]
      rw [applyCustom, List.foldl_cons, if_neg hs]
      exact ih (ainsert p.1 p.2 a)

/-- C3: reserved names inside a legacy `custom` mapping are silently
dropped — they never become attributes of the decoded context, and
discarding them from `custom` before decoding does not change the result
(hence the encoded output only shows them through the top-level
projection). -/
theorem c3_reserved_custom_isolated (u : UserFormat) (c : SingleContext)
    (hconv : contextFromVariant (ContextVariant.implicit u) = .ok (Context.single c)) :
    (∀ r, should_skip_custom_attribute r = true → alookup r c.attributes = none) ∧
    contextFromVariant (ContextVariant.implicit u) =
      contextFromVariant (ContextVariant.implicit
        { u with custom := (u.custom.map (fun m => m.filter (fun p => !should_skip_custom_attribute p.1))) }) := by
  constructor
  · intro r hr
    have h1 := implicit_build_result u
    rw [hconv] at h1
    have h2 : Context.single c = Context.single ⟨"user", u.key, u.name,
        u.anonymous.getD false, legacyAttrs u, u.secondary,
        privOf (u.private_attribute_names.getD [])⟩ := Except.ok.inj h1
    have h3 := Context.single.inj h2
    rw [show c.attributes = legacyAttrs u by rw [h3]]
    exact alookup_legacyAttrs_reserved u hr
  · rw [implicit_build_result, implicit_build_result]
    have hattrs : legacyAttrs u = legacyAttrs
        { u with custom := (u.custom.map (fun m => m.filter (fun p => !should_skip_custom_attribute p.1))) } := by
      rw [legacyAttrs, legacyAttrs]
      cases hc : u.custom with
      | none => rfl
      | some m =>
        show applyCustom m _ = applyCustom (m.filter _) _
        exact applyCustom_eq_filter m _
    rw [hattrs]

/-- C3 witness. -/
theorem c3_reserved_custom_isolated_witness :
    alookup "_meta" (SingleContext.attributes ⟨"user", "foo", some "bar", true,
      [("a", Json.num 1)], none, none⟩) = none :=
  (c3_reserved_custom_isolated
    ⟨"foo", some "bar", none, some true,
      some [("kind", Json.str "."), ("key", Json.str "."), ("name", Json.str "."),
        ("anonymous", Json.bool true), ("_meta", Json.bool true), ("a", Json.num 1)],
      none, none, none, none, none, none, none⟩
    ⟨"user", "foo", some "bar", true, [("a", Json.num 1)], none, none⟩
    (by rfl)).1 "_meta" (by decide)

/-- C10: when a legacy input carries both a dedicated top-level field and a
non-reserved `custom` entry with the same projected attribute name, the
`custom` value wins in the decoded context (custom entries are applied to
the builder after the dedicated projections). -/
theorem c10_custom_overrides_dedicated (u : UserFormat) (c : SingleContext)
    (m : Entries)
    (hconv : contextFromVariant (ContextVariant.implicit u) = .ok (Context.single c))
    (hm : u.custom = some m) (hnd : (keysOf m).Nodup) :
    (∀ s v, u.avatar = some s → ("avatar", v) ∈ m →
      alookup "avatar" c.attributes = some v) ∧
    (∀ s v, u.first_name = some s → ("firstName", v) ∈ m →
      alookup "firstName" c.attributes = some v) ∧
    (∀ s v, u.last_name = some s → ("lastName", v) ∈ m →
      alookup "lastName" c.attributes = some v) ∧
    (∀ s v, u.country = some s → ("country", v) ∈ m →
      alookup "country" c.attributes = some v) ∧
    (∀ s v, u.email = some s → ("email", v) ∈ m →
      alookup "email" c.attributes = some v) ∧
    (∀ s v, u.ip = some s → ("ip", v) ∈ m →
      alookup "ip" c.attributes = some v) := by
  have h1 := implicit_build_result u
  rw [hconv] at h1
  have h2 := Context.single.inj (Except.ok.inj h1)
  have hattrs : c.attributes = legacyAttrs u := by rw [h2]
  rw [legacyAttrs, hm, customApply] at hattrs
  refine ⟨?_, ?_, ?_, ?_, ?_, ?_⟩
  all_goals
    intro s v hs hv
    rw [hattrs]
    exact alookup_applyCustom_mem m _ hv hnd (by decide)

/-- C10 witness. -/
theorem c10_custom_overrides_dedicated_witness :
    alookup "email" (SingleContext.attributes ⟨"user", "k", none, false,
      [("email", Json.str "b")], none, none⟩) = some (Json.str "b") :=
  (c10_custom_overrides_dedicated
    ⟨"k", none, none, none, some [("email", Json.str "b")], none, none, none, none,
      some "a", none, none⟩
    ⟨"user", "k", none, false, [("email", Json.str "b")], none, none⟩
    [("email", Json.str "b")]
    (by rfl) rfl (by decide)).2.2.2.2.1 "a" (Json.str "b") rfl (by decide)

/-! ### C2 bridge lemmas -/
theorem contains_reserved (n : String) :
    (["kind", "key", "name", "anonymous", "_meta"] : List String).contains n =
      should_skip_custom_attribute n := by
  by_cases h1 : n = "kind"
  · rw [h1]; decide
  by_cases h2 : n = "key"
  · rw [h2]; decide
  by_cases h3 : n = "name"
  · rw [h3]; decide
  by_cases h4 : n = "anonymous"
  · rw [h4]; decide
  by_cases h5 : n = "_meta"
  · rw [h5]; decide
  have hl : (["kind", "key", "name", "anonymous", "_meta"] : List String).contains n = false := by
    simp [h1, h2, h3, h4, h5]
  have hr : should_skip_custom_attribute n = false := by
    simp [should_skip_custom_attribute, h1, h2, h3, h4, h5]
  rw [hl, hr]

theorem legacyProjName_eq (o : Option String) : legacyProjName o = nameEnt o := by
  cases o <;> rfl

theorem legacyProjAnon_eq (o : Option Bool) :
    legacyProjAnon o = anonEnt (some (o.getD false)) := by
  rcases o with _ | b
  · rfl
  · cases b <;> rfl

theorem legacyProjMeta_eq (sec : Option String) (pan : Option (List String)) :
    legacyProjMeta sec pan = metaEnt (some ⟨sec, privOf (pan.getD [])⟩) := by
  rcases sec with _ | s
  · rcases pan with _ | l
    · rfl
    · cases l with
      | nil => rfl
      | cons x xs => rfl
  · rcases pan with _ | l
    · rfl
    · cases l with
      | nil => rfl
      | cons x xs => rfl

theorem legacyProjAttrs_eq (u : UserFormat) : legacyProjAttrs u = legacyAttrs u := by
  rw [legacyProjAttrs, legacyAttrs]
  cases hc : u.custom with
  | none => rfl
  | some m =>
    show m.foldl _ _ = customApply (some m) _
    rw [customApply, applyCustom]
    simp only [contains_reserved]

/-- C2: a legacy input that decodes yields a context of kind `user`, and
encoding that context produces exactly the modern single-kind JSON value
given by the spec projection table (`legacyProj`): `secondary` under
`_meta.secondary`, `privateAttributeNames` as `_meta.privateAttributes`,
`first_name` renamed `firstName`, `last_name` renamed `lastName`, and
`avatar` / `country` / `email` / `ip` kept as attributes. -/
theorem c2_legacy_normalization (J : Json) (u : UserFormat) (C : Context)
    (hdec : decodeVariant J = .ok (ContextVariant.implicit u))
    (hconv : contextFromVariant (ContextVariant.implicit u) = .ok C) :
    C.kindOf = "user" ∧ encode C = some (legacyProj u) := by
  have h1 := implicit_build_result u
  rw [hconv] at h1
  have h2 : C = Context.single ⟨"user", u.key, u.name, u.anonymous.getD false,
      legacyAttrs u, u.secondary, privOf (u.private_attribute_names.getD [])⟩ :=
    Except.ok.inj h1
  subst h2
  refine ⟨rfl, ?_⟩
  show some (Json.obj (serialize_standalone ⟨"user", ⟨u.key, u.name,
    some (u.anonymous.getD false), legacyAttrs u,
    some ⟨u.secondary, privOf (u.private_attribute_names.getD [])⟩⟩⟩)) =
    some (legacyProj u)
  congr 1
  rw [serialize_standalone, serialize_single_kind_eq, legacyProj]
  rw [legacyProjName_eq, legacyProjAnon_eq, legacyProjMeta_eq, legacyProjAttrs_eq]
  simp

/-- C2 witness. -/
theorem c2_legacy_normalization_witness :
    Context.kindOf (Context.single ⟨"user", "foo", none, false, [],
        some "bar", none⟩) = "user" ∧
    encode (Context.single ⟨"user", "foo", none, false, [], some "bar", none⟩) =
      some (legacyProj ⟨"foo", none, some "bar", none, none, none, none, none,
        none, none, none, none⟩) :=
  c2_legacy_normalization (.obj [("key", Json.str "foo"), ("secondary", Json.str "bar")])
    ⟨"foo", none, some "bar", none, none, none, none, none, none, none, none, none⟩
    (Context.single ⟨"user", "foo", none, false, [], some "bar", none⟩)
    (by rfl) (by rfl)

theorem single_kind_context_from_eq (c : SingleContext) :
    single_kind_context_from c = (c.kind, skFrom c) := rfl

theorem mapM_str_roundtrip (l : List String) :
    (l.map Json.str).mapM parseStrElem = .ok l := by
  induction l with
  | nil => rfl
  | cons x t ih =>
    rw [List.map_cons, List.mapM_cons]
    rw [show parseStrElem (Json.str x) = .ok x from rfl]
    rw [ih]
    rfl

theorem parseMeta_serialize (sec : Option String) (priv : Option (List String))
    (hpriv : priv ≠ some []) :
    parseMeta (serialize_meta ⟨sec, priv⟩) = .ok ⟨sec, priv⟩ := by
  rw [parseMeta, serialize_meta]
  rcases sec with _ | s
  · rcases priv with _ | l
    · rfl
    · cases l with
      | nil => exact absurd rfl hpriv
      | cons x xs =>
        show (parseFieldOptString (alookup "secondary"
          ([] ++ [("privateAttributes", Json.arr ((x :: xs).map Json.str))]))).bind _ = _
        rw [List.nil_append]
        rw [show alookup "secondary" [("privateAttributes",
          Json.arr ((x :: xs).map Json.str))] = none from rfl]
        show (parseFieldOptStrList (alookup "privateAttributes"
          [("privateAttributes", Json.arr ((x :: xs).map Json.str))])).bind _ = _
        rw [alookup_cons_self]
        rw [parseFieldOptStrList]
        rw [mapM_str_roundtrip]
        rfl
  · rcases priv with _ | l
    · rfl
    · cases l with
      | nil => exact absurd rfl hpriv
      | cons x xs =>
        show (parseFieldOptString (alookup "secondary"
          ([("secondary", Json.str s)] ++
            [("privateAttributes", Json.arr ((x :: xs).map Json.str))]))).bind _ = _
        rw [show alookup "secondary" ([("secondary", Json.str s)] ++
          [("privateAttributes", Json.arr ((x :: xs).map Json.str))]) =
          some (Json.str s) from rfl]
        show (parseFieldOptStrList (alookup "privateAttributes"
          ([("secondary", Json.str s)] ++
            [("privateAttributes", Json.arr ((x :: xs).map Json.str))]))).bind _ = _
        rw [show alookup "privateAttributes" ([("secondary", Json.str s)] ++
          [("privateAttributes", Json.arr ((x :: xs).map Json.str))]) =
          some (Json.arr ((x :: xs).map Json.str)) from rfl]
        rw [parseFieldOptStrList]
        rw [mapM_str_roundtrip]
        rfl

theorem parseOptMeta_metaEnt (sec : Option String) (priv : Option (List String))
    (hpriv : priv ≠ some []) (pre : Entries)
    (hpre : alookup "_meta" pre = none) :
    parseOptMeta (alookup "_meta" (pre ++ metaEnt (some ⟨sec, priv⟩))) =
      .ok (normMeta sec priv) := by
  rw [alookup_append_right hpre]
  rw [alookup_metaEnt_self]
  rw [normMeta]
  by_cases hm : is_none_meta_option (some ⟨sec, priv⟩)
  · rw [if_pos hm, if_pos hm]
    rfl
  · rw [if_neg hm, if_neg hm]
    show parseOptMeta (some (Json.obj (serialize_meta ⟨sec, priv⟩))) = _
    rw [parseOptMeta]
    rw [parseMeta_serialize sec priv hpriv]
    rfl

theorem attrs_filter_keeps {l : Entries} (d : Bool)
    (hattr : l.all (fun p => !(consumedKeys true).contains p.1) = true) :
    l.filter (fun p => !(consumedKeys d).contains p.1) = l := by
  rw [List.filter_eq_self]
  intro p hp
  have h1 := List.all_eq_true.1 hattr p hp
  have h5 : p.1 ∉ consumedKeys true := by
    intro hmem
    rw [show ((consumedKeys true).contains p.1) = true by simpa using hmem] at h1
    exact absurd h1 (by simp)
  cases d
  · have h4 : p.1 ∉ consumedKeys false := by
      intro hmem
      apply h5
      rw [consumedKeys] at hmem ⊢
      simp at hmem ⊢
      tauto
    simpa using h4
  · exact h1

theorem filter_nameEnt (d : Bool) (o : Option String) :
    (nameEnt o).filter (fun p => !(consumedKeys d).contains p.1) = [] := by
  cases o <;> cases d <;> rfl

theorem filter_anonEnt (d : Bool) (o : Option Bool) :
    (anonEnt o).filter (fun p => !(consumedKeys d).contains p.1) = [] := by
  rcases o with _ | b
  · cases d <;> rfl
  · cases b <;> cases d <;> rfl

theorem filter_metaEnt (d : Bool) (o : Option Meta) :
    (metaEnt o).filter (fun p => !(consumedKeys d).contains p.1) = [] := by
  rcases o with _ | m
  · cases d <;> rfl
  · rw [metaEnt]
    by_cases hm : is_none_meta_option (some m)
    · rw [if_pos hm]
      cases d <;> rfl
    · rw [if_neg hm]
      cases d <;> rfl

theorem parseFieldOptString_map_str (o : Option String) :
    parseFieldOptString (o.map Json.str) = .ok o := by
  cases o <;> rfl

theorem kindValid_unpack {k : String} (h : kindValidB k = true) :
    k ≠ "" ∧ k ≠ "kind" ∧ k ≠ "multi" := by
  by_cases h1 : k = ""
  · rw [kindValidB, if_pos h1] at h
    exact absurd h (by simp)
  by_cases h2 : k = "kind"
  · rw [kindValidB, if_neg h1, if_pos h2] at h
    exact absurd h (by simp)
  by_cases h3 : k = "multi"
  · rw [kindValidB, if_neg h1, if_neg h2, if_pos h3] at h
    exact absurd h (by simp)
  exact ⟨h1, h2, h3⟩

theorem wf_single_unpack {c : SingleContext} (h : c.WfB = true) :
    kindValidB c.kind = true ∧ (keysOf c.attributes).Nodup ∧
    c.attributes.all (fun p => !(consumedKeys true).contains p.1) = true ∧
    c.private_attributes ≠ some [] := by
  rw [SingleContext.WfB, Bool.and_eq_true, Bool.and_eq_true, Bool.and_eq_true] at h
  rcases h with ⟨⟨⟨h1, h2⟩, h3⟩, h4⟩
  refine ⟨h1, ?_, h3, ?_⟩
  · rw [nodupKeysB] at h2
    exact of_decide_eq_true h2
  · intro he
    rw [he] at h4
    exact absurd h4 (by simp)

theorem parseSingleKind_serialized (c : SingleContext) (d : Bool)
    (hattr : c.attributes.all (fun p => !(consumedKeys true).contains p.1) = true)
    (hpriv : c.private_attributes ≠ some []) :
    parseSingleKind d (serialize_single_kind (skFrom c)) = .ok (normSk c) := by
  have hkeyv : parseKeyField (alookup "key" (serialize_single_kind (skFrom c))) =
      .ok c.key := by
    rw [alookup_ssk_key]
    rfl
  have hnamev : parseFieldOptString (alookup "name" (serialize_single_kind (skFrom c))) =
      .ok c.name := by
    rw [serialize_single_kind_eq]
    dsimp only [skFrom]
    rw [alookup_cons_ne _ _ _ (show ("key" : String) ≠ "name" by decide)]
    rw [alookup_append, alookup_append, alookup_append]
    rw [alookup_nameEnt_self]
    rw [alookup_anonEnt_ne "name" (by decide), optOr_right_none]
    rw [alookup_none_of_all hattr (by decide), optOr_right_none]
    rw [alookup_metaEnt_ne "name" (by decide), optOr_right_none]
    exact parseFieldOptString_map_str c.name
  have hanonv : parseFieldOptBool (alookup "anonymous" (serialize_single_kind (skFrom c))) =
      .ok (normAnon c.anonymous) := by
    rw [serialize_single_kind_eq]
    dsimp only [skFrom]
    rw [alookup_cons_ne _ _ _ (show ("key" : String) ≠ "anonymous" by decide)]
    rw [alookup_append, alookup_append, alookup_append]
    rw [alookup_nameEnt_ne "anonymous" (by decide), optOr_none]
    rw [alookup_anonEnt_self]
    rw [alookup_none_of_all hattr (by decide), optOr_right_none]
    rw [alookup_metaEnt_ne "anonymous" (by decide), optOr_right_none]
    cases c.anonymous <;> rfl
  have hmetav : parseOptMeta (alookup "_meta" (serialize_single_kind (skFrom c))) =
      .ok (normMeta c.secondary c.private_attributes) := by
    rw [serialize_single_kind_eq]
    dsimp only [skFrom]
    rw [alookup_cons_ne _ _ _ (show ("key" : String) ≠ "_meta" by decide)]
    refine parseOptMeta_metaEnt c.secondary c.private_attributes hpriv _ ?_
    rw [alookup_append, alookup_append]
    rw [alookup_nameEnt_ne "_meta" (by decide), optOr_none]
    rw [alookup_anonEnt_ne "_meta" (by decide), optOr_none]
    exact alookup_none_of_all hattr (by decide)
  have hfiltv : (serialize_single_kind (skFrom c)).filter
      (fun p => !(consumedKeys d).contains p.1) = c.attributes := by
    rw [serialize_single_kind_eq]
    dsimp only [skFrom]
    rw [List.filter_cons]
    have hc : (!(consumedKeys d).contains ("key", Json.str c.key).1) = false := by
      show (!(consumedKeys d).contains "key") = false
      cases d <;> rfl
    rw [if_neg (by rw [hc]; exact Bool.false_ne_true)]
    rw [List.filter_append, List.filter_append, List.filter_append]
    rw [filter_nameEnt, filter_anonEnt, filter_metaEnt]
    rw [attrs_filter_keeps d hattr]
    simp
  rw [parseSingleKind, hkeyv, hnamev, hanonv, hmetav, hfiltv]
  rfl

theorem buildNested_serialized (c : SingleContext) (hwf : c.WfB = true)
    (hkey : c.key ≠ "") : buildNested (c.kind, normSk c) = .ok c := by
  rcases wf_single_unpack hwf with ⟨hk, hnd, _, hpriv⟩
  rw [buildNested]
  dsimp only
  rw [buildSingle_ok hk (show (normSk c).key ≠ "" from hkey)]
  congr 1
  rcases c with ⟨k, key, nm, an, at2, sec, priv⟩
  rw [nestedResult]
  dsimp only [normSk]
  rw [applyEntries_nil _ hnd]
  rcases sec with _ | s
  · rcases priv with _ | l
    · cases an <;> rfl
    · cases l with
      | nil => exact absurd rfl hpriv
      | cons x xs => cases an <;> rfl
  · rcases priv with _ | l
    · cases an <;> rfl
    · cases l with
      | nil => exact absurd rfl hpriv
      | cons x xs => cases an <;> rfl

theorem parseSingleKind_kind_cons (v : Json) (L : Entries) :
    parseSingleKind true (("kind", v) :: L) = parseSingleKind true L := by
  rw [parseSingleKind, parseSingleKind]
  rw [alookup_cons_ne "key" _ _ (show ("kind" : String) ≠ "key" by decide)]
  rw [alookup_cons_ne "name" _ _ (show ("kind" : String) ≠ "name" by decide)]
  rw [alookup_cons_ne "anonymous" _ _ (show ("kind" : String) ≠ "anonymous" by decide)]
  rw [alookup_cons_ne "_meta" _ _ (show ("kind" : String) ≠ "_meta" by decide)]
  rw [List.filter_cons]
  have hc : (!(consumedKeys true).contains ("kind", v).1) = false := by
    show (!(consumedKeys true).contains "kind") = false
    rfl
  rw [if_neg (by rw [hc]; exact Bool.false_ne_true)]

theorem decode_encode_single (c : SingleContext) (hwf : c.WfB = true)
    (hkey : c.key ≠ "") :
    decode (.obj (serialize_standalone ⟨c.kind, skFrom c⟩)) = .ok (.single c) := by
  rcases wf_single_unpack hwf with ⟨hk, hnd, hattr, hpriv⟩
  rcases kindValid_unpack hk with ⟨hk1, hk2, hk3⟩
  rw [decode, decodeVariant]
  rw [show serialize_standalone ⟨c.kind, skFrom c⟩ =
    ("kind", Json.str c.kind) :: serialize_single_kind (skFrom c) from rfl]
  rw [alookup_cons_self]
  dsimp only
  rw [if_neg hk3, if_neg hk1]
  rw [show kindFromString c.kind = .ok c.kind by rw [kindFromString, if_neg hk1, if_neg hk2]]
  rw [parseSingleKind_kind_cons]
  rw [parseSingleKind_serialized c true hattr hpriv]
  show contextFromVariant (ContextVariant.single ⟨c.kind, normSk c⟩) = .ok (.single c)
  rw [show contextFromVariant (ContextVariant.single ⟨c.kind, normSk c⟩) =
    Except.map Context.single (buildNested (c.kind, normSk c)) from rfl]
  rw [buildNested_serialized c hwf hkey]
  rfl

theorem mapM_ok_of_forall {α β : Type} (f : α → Except String β) (g : α → β)
    (l : List α) (h : ∀ x ∈ l, f x = .ok (g x)) : l.mapM f = .ok (l.map g) := by
  induction l with
  | nil => rfl
  | cons x t ih =>
    rw [List.mapM_cons, h x (List.mem_cons_self x t),
      ih (fun y hy => h y (List.mem_cons_of_mem x hy))]
    rfl

theorem mapM_map {α β γ : Type} (f : α → β) (h : β → Except String γ) (l : List α) :
    (l.map f).mapM h = l.mapM (fun x => h (f x)) := by
  induction l with
  | nil => rfl
  | cons x t ih => rw [List.map_cons, List.mapM_cons, List.mapM_cons, ih]

theorem wf_multi_unpack {cs : List SingleContext} (h : (Context.multi cs).WfB = true) :
    cs.isEmpty = false ∧ (∀ c ∈ cs, c.WfB = true) := by
  rw [Context.WfB, Bool.and_eq_true, Bool.and_eq_true] at h
  rcases h with ⟨⟨h1, h2⟩, _⟩
  refine ⟨?_, fun c hc => List.all_eq_true.1 h2 c hc⟩
  cases he : cs.isEmpty
  · rfl
  · rw [he] at h1
    exact absurd h1 (by simp)

theorem parseMulti_serialized (cs : List SingleContext)
    (hall : ∀ c ∈ cs, c.WfB = true) :
    parseMulti (("kind", Json.str "multi") ::
      (cs.map single_kind_context_from).map
        (fun p => (p.1, Json.obj (serialize_single_kind p.2)))) =
      .ok ⟨"multi", cs.map (fun c => (c.kind, normSk c))⟩ := by
  have hstep : ∀ c ∈ cs, (do
      let k ← kindFromString ((fun p : String × SingleKindContext =>
        (p.1, Json.obj (serialize_single_kind p.2))) (single_kind_context_from c)).1
      match ((fun p : String × SingleKindContext =>
        (p.1, Json.obj (serialize_single_kind p.2))) (single_kind_context_from c)).2 with
      | Json.obj svs => (parseSingleKind false svs).map (fun s => (k, s))
      | _ => Except.error "nested context must be an object") =
      .ok ((fun c : SingleContext => (c.kind, normSk c)) c) := by
    intro c hc
    rcases wf_single_unpack (hall c hc) with ⟨hk, _, hattr, hpriv⟩
    rcases kindValid_unpack hk with ⟨hk1, hk2, _⟩
    show (do
      let k ← kindFromString c.kind
      match Json.obj (serialize_single_kind (skFrom c)) with
      | Json.obj svs => (parseSingleKind false svs).map (fun s => (k, s))
      | _ => Except.error "nested context must be an object") = _
    rw [show kindFromString c.kind = .ok c.kind from by
      rw [kindFromString, if_neg hk1, if_neg hk2]]
    show (parseSingleKind false (serialize_single_kind (skFrom c))).map
      (fun s => (c.kind, s)) = _
    rw [parseSingleKind_serialized c false hattr hpriv]
    rfl
  rw [parseMulti]
  rw [List.filter_cons]
  have hc0 : (!((("kind", Json.str "multi") : String × Json).1 = "kind")) = false := by
    show (!(("kind" : String) = "kind")) = false
    simp
  rw [if_neg (by rw [hc0]; exact Bool.false_ne_true)]
  rw [List.filter_eq_self.2 ?hfil]
  case hfil =>
    intro p hp
    rcases List.mem_map.1 hp with ⟨q, hq, rfl⟩
    rcases List.mem_map.1 hq with ⟨c, hcmem, rfl⟩
    rcases kindValid_unpack (wf_single_unpack (hall c hcmem)).1 with ⟨_, hk2, _⟩
    show (!((single_kind_context_from c).1 = "kind")) = true
    rw [single_kind_context_from_eq]
    simpa using hk2
  rw [mapM_map]
  rw [mapM_map]
  rw [mapM_ok_of_forall _ (fun c => (c.kind, normSk c)) cs hstep]
  rfl

theorem decode_encode_multi (cs : List SingleContext)
    (hwf : (Context.multi cs).WfB = true)
    (hne : (Context.multi cs).allKeysNonempty = true) :
    decode (.obj (serialize_multi ⟨"multi", cs.map single_kind_context_from⟩)) =
      .ok (.multi cs) := by
  rcases wf_multi_unpack hwf with ⟨hne0, hall⟩
  have hkeys : ∀ c ∈ cs, c.key ≠ "" := by
    simpa [Context.allKeysNonempty] using hne
  rw [decode]
  rw [show serialize_multi ⟨"multi", cs.map single_kind_context_from⟩ =
    ("kind", Json.str "multi") :: (cs.map single_kind_context_from).map
      (fun p => (p.1, Json.obj (serialize_single_kind p.2))) from rfl]
  rw [decodeVariant]
  rw [alookup_cons_self]
  dsimp only
  rw [if_pos rfl]
  rw [parseMulti_serialized cs hall]
  show contextFromVariant (ContextVariant.multi
    ⟨"multi", cs.map (fun c => (c.kind, normSk c))⟩) = .ok (.multi cs)
  rw [contextFromVariant_multi]
  dsimp only
  rw [mapM_map]
  rw [mapM_ok_of_forall _ (fun c => c) cs ?hbuild]
  case hbuild =>
    intro c hc
    exact buildNested_serialized c (hall c hc) (hkeys c hc)
  show (if (cs.map (fun c => c)).isEmpty then Except.error msgEmptyMulti
    else Except.ok (Context.multi (cs.map (fun c => c)))) = _
  rw [show cs.map (fun c => c) = cs from by simp]
  rw [if_neg (by rw [hne0]; exact Bool.false_ne_true)]

/-- C5 (amended): decoding the encoding of a well-formed context all of
whose keys are non-empty yields the context back. -/
theorem c5_decode_encode_roundtrip (C : Context) (hwf : C.WfB = true)
    (hne : C.allKeysNonempty = true) :
    ∃ E, encode C = some E ∧ decode E = .ok C := by
  cases C with
  | single c =>
    refine ⟨_, rfl, ?_⟩
    show decode (.obj (serialize_standalone ⟨c.kind, skFrom c⟩)) = .ok (.single c)
    have hkey : c.key ≠ "" := by
      simpa [Context.allKeysNonempty] using hne
    exact decode_encode_single c (by simpa [Context.WfB] using hwf) hkey
  | multi cs =>
    refine ⟨_, rfl, ?_⟩
    show decode (.obj (serialize_multi ⟨"multi", cs.map single_kind_context_from⟩)) =
      .ok (.multi cs)
    exact decode_encode_multi cs hwf hne

/-- C5 witness. -/
theorem c5_decode_encode_roundtrip_witness :
    ∃ E, encode (Context.multi [⟨"org", "k1", some "n", true, [("a", Json.num 2)],
      some "s", some ["a"]⟩, ⟨"user", "k2", none, false, [], none, none⟩]) = some E ∧
    decode E = .ok (Context.multi [⟨"org", "k1", some "n", true, [("a", Json.num 2)],
      some "s", some ["a"]⟩, ⟨"user", "k2", none, false, [], none, none⟩]) :=
  c5_decode_encode_roundtrip _ (by decide) (by decide)

/-- C5 counterexample: the claim as stated fails on the legacy-origin
empty-key context — a well-formed context produced by decoding, whose
encoding no longer decodes. -/
theorem c5_empty_key_counterexample :
    decode (.obj [("key", Json.str "")]) =
      .ok (Context.single ⟨"user", "", none, false, [], none, none⟩) ∧
    Context.WfB (Context.single ⟨"user", "", none, false, [], none, none⟩) = true ∧
    encode (Context.single ⟨"user", "", none, false, [], none, none⟩) =
      some (.obj [("kind", Json.str "user"), ("key", Json.str "")]) ∧
    decode (.obj [("kind", Json.str "user"), ("key", Json.str "")]) =
      .error msgEmptyKey :=
  ⟨rfl, by decide, rfl, rfl⟩

/-! ### Parse inversion lemmas for the round-trip claim -/
theorem parseFieldOptString_inv {o : Option Json} {r : Option String}
    (h : parseFieldOptString o = .ok r) :
    ((o = none ∨ o = some .null) ∧ r = none) ∨
      ∃ s, o = some (.str s) ∧ r = some s := by
  rcases o with _ | v
  · exact Or.inl ⟨Or.inl rfl, (Except.ok.inj h).symm⟩
  · cases v with
    | null => exact Or.inl ⟨Or.inr rfl, (Except.ok.inj h).symm⟩
    | str s => exact Or.inr ⟨s, rfl, (Except.ok.inj h).symm⟩
    | bool b => exact absurd h (by simp [parseFieldOptString])
    | num n => exact absurd h (by simp [parseFieldOptString])
    | arr l => exact absurd h (by simp [parseFieldOptString])
    | obj l => exact absurd h (by simp [parseFieldOptString])

theorem parseFieldOptBool_inv {o : Option Json} {r : Option Bool}
    (h : parseFieldOptBool o = .ok r) :
    ((o = none ∨ o = some .null) ∧ r = none) ∨
      ∃ b, o = some (.bool b) ∧ r = some b := by
  rcases o with _ | v
  · exact Or.inl ⟨Or.inl rfl, (Except.ok.inj h).symm⟩
  · cases v with
    | null => exact Or.inl ⟨Or.inr rfl, (Except.ok.inj h).symm⟩
    | bool b => exact Or.inr ⟨b, rfl, (Except.ok.inj h).symm⟩
    | str s => exact absurd h (by simp [parseFieldOptBool])
    | num n => exact absurd h (by simp [parseFieldOptBool])
    | arr l => exact absurd h (by simp [parseFieldOptBool])
    | obj l => exact absurd h (by simp [parseFieldOptBool])

theorem mapM_parseStrElem_inv {l0 : List Json} {l : List String}
    (h : l0.mapM parseStrElem = .ok l) : l0 = l.map Json.str := by
  induction l0 generalizing l with
  | nil =>
    have : l = [] := by
      have hh : (Except.ok [] : Except String (List String)) = .ok l := h
      exact (Except.ok.inj hh).symm
    rw [this]
    rfl
  | cons x t ih =>
    rw [List.mapM_cons] at h
    rcases except_bind_ok h with ⟨s, hs, h⟩
    rcases except_bind_ok h with ⟨ts, hts, h⟩
    have hx : x = Json.str s := by
      cases x <;> first
        | exact (Except.ok.inj hs) ▸ rfl
        | exact absurd hs (by simp [parseStrElem])
    have hl : l = s :: ts := by
      have hh : (Except.ok (s :: ts) : Except String (List String)) = .ok l := h
      exact (Except.ok.inj hh).symm
    rw [hl, hx, List.map_cons, ih hts]

theorem parseFieldOptStrList_inv {o : Option Json} {r : Option (List String)}
    (h : parseFieldOptStrList o = .ok r) :
    ((o = none ∨ o = some .null) ∧ r = none) ∨
      ∃ l, o = some (.arr (l.map Json.str)) ∧ r = some l := by
  rcases o with _ | v
  · exact Or.inl ⟨Or.inl rfl, (Except.ok.inj h).symm⟩
  · cases v with
    | null => exact Or.inl ⟨Or.inr rfl, (Except.ok.inj h).symm⟩
    | arr l0 =>
      rw [parseFieldOptStrList] at h
      rcases except_map_ok h with ⟨l, hl, hr⟩
      exact Or.inr ⟨l, by rw [mapM_parseStrElem_inv hl], hr.symm⟩
    | str s => exact absurd h (by simp [parseFieldOptStrList])
    | bool b => exact absurd h (by simp [parseFieldOptStrList])
    | num n => exact absurd h (by simp [parseFieldOptStrList])
    | obj l => exact absurd h (by simp [parseFieldOptStrList])

theorem parseMeta_inv {ms : Entries} {m : Meta} (h : parseMeta ms = .ok m) :
    parseFieldOptString (alookup "secondary" ms) = .ok m.secondary ∧
    parseFieldOptStrList (alookup "privateAttributes" ms) = .ok m.private_attributes := by
  rw [parseMeta] at h
  rcases except_bind_ok h with ⟨sec, hsec, h⟩
  rcases except_bind_ok h with ⟨pa, hpa, h⟩
  have hm := Except.ok.inj h
  rw [← hm]
  exact ⟨hsec, hpa⟩

theorem parseOptMeta_inv {o : Option Json} {r : Option Meta}
    (h : parseOptMeta o = .ok r) :
    ((o = none ∨ o = some .null) ∧ r = none) ∨
      ∃ ms m, o = some (.obj ms) ∧ parseMeta ms = .ok m ∧ r = some m := by
  rcases o with _ | v
  · exact Or.inl ⟨Or.inl rfl, (Except.ok.inj h).symm⟩
  · cases v with
    | null => exact Or.inl ⟨Or.inr rfl, (Except.ok.inj h).symm⟩
    | obj ms =>
      rw [parseOptMeta] at h
      rcases except_map_ok h with ⟨m, hm, hr⟩
      exact Or.inr ⟨ms, m, rfl, hm, hr.symm⟩
    | str s => exact absurd h (by simp [parseOptMeta])
    | bool b => exact absurd h (by simp [parseOptMeta])
    | num n => exact absurd h (by simp [parseOptMeta])
    | arr l => exact absurd h (by simp [parseOptMeta])

theorem kindFromString_ok_inv {s k : String} (h : kindFromString s = .ok k) :
    k = s ∧ s ≠ "" ∧ s ≠ "kind" := by
  by_cases h1 : s = ""
  · rw [kindFromString, if_pos h1] at h
    exact absurd h (by simp)
  by_cases h2 : s = "kind"
  · rw [kindFromString, if_neg h1, if_pos h2] at h
    exact absurd h (by simp)
  rw [kindFromString, if_neg h1, if_neg h2] at h
  exact ⟨(Except.ok.inj h).symm, h1, h2⟩

theorem mapM_ok_forall2 {α β : Type} {f : α → Except String β} {l : List α}
    {l2 : List β} (h : l.mapM f = .ok l2) :
    List.Forall₂ (fun x y => f x = .ok y) l l2 := by
  induction l generalizing l2 with
  | nil =>
    have : l2 = [] := by
      have hh : (Except.ok [] : Except String (List β)) = .ok l2 := h
      exact (Except.ok.inj hh).symm
    rw [this]
    exact List.Forall₂.nil
  | cons x t ih =>
    rw [List.mapM_cons] at h
    rcases except_bind_ok h with ⟨y, hy, h⟩
    rcases except_bind_ok h with ⟨ys, hys, h⟩
    have hl : l2 = y :: ys := by
      have hh : (Except.ok (y :: ys) : Except String (List β)) = .ok l2 := h
      exact (Except.ok.inj hh).symm
    rw [hl]
    exact List.Forall₂.cons hy (ih hys)

theorem buildSingle_bad_kind {k : String} {c : SingleKindContext}
    (hk : kindValidB k = false) (hkey : c.key ≠ "") :
    ((build_context (ContextBuilder.new c.key) c).set_kind k).build =
      .error msgInvalidKind := by
  rw [build_context_spec]
  simp [ContextBuilder.new, ContextBuilder.set_kind, ContextBuilder.build, hk, hkey]

theorem buildNested_ok_inv {k : String} {sk : SingleKindContext} {c : SingleContext}
    (h : buildNested (k, sk) = .ok c) :
    kindValidB k = true ∧ sk.key ≠ "" ∧ c = nestedResult k sk := by
  by_cases h1 : sk.key = ""
  · rw [buildNested] at h
    dsimp only at h
    rw [buildSingle_empty_key h1] at h
    exact absurd h (by simp)
  by_cases h2 : kindValidB k = true
  · rw [buildNested] at h
    dsimp only at h
    rw [buildSingle_ok h2 h1] at h
    exact ⟨h2, h1, (Except.ok.inj h).symm⟩
  · rw [buildNested] at h
    dsimp only at h
    rw [buildSingle_bad_kind (Bool.eq_false_iff.2 h2) h1] at h
    exact absurd h (by simp)

/-! ### Key-list and canonicalization utilities for the round-trip claim -/
theorem alookup_of_mem_nodup {l : Entries} {p : String × Json}
    (nd : (keysOf l).Nodup) (hm : p ∈ l) : alookup p.1 l = some p.2 := by
  induction l with
  | nil => exact absurd hm (List.not_mem_nil p)
  | cons q t ih =>
    rcases List.mem_cons.1 hm with rfl | hm2
    · exact alookup_cons_self _ _ _
    · have hq : q.1 ≠ p.1 := by
        intro he
        exact (nodup_keys_cons nd).1 (he ▸ List.mem_map.2 ⟨p, hm2, rfl⟩)
      rw [alookup_cons_ne _ _ _ hq]
      exact ih (nodup_keys_cons nd).2 hm2

theorem mem_of_alookup_some {l : Entries} {x : String} {v : Json}
    (h : alookup x l = some v) : (x, v) ∈ l := by
  rcases alookup_some_split h with ⟨a, b, hl, _⟩
  rw [hl]
  simp

theorem keysOf_filter_sublist (f : String × Json → Bool) (l : Entries) :
    List.Sublist (keysOf (l.filter f)) (keysOf l) :=
  List.Sublist.map Prod.fst (List.filter_sublist l)

theorem keysOf_filterMap_sublist (g : String → Json → Option Json) (l : Entries) :
    List.Sublist
      (keysOf (l.filterMap (fun p => (g p.1 p.2).map (fun w => (p.1, w)))))
      (keysOf l) := by
  induction l with
  | nil => simp
  | cons p t ih =>
    rw [List.filterMap_cons]
    cases hg : (g p.1 p.2).map (fun w => (p.1, w)) with
    | none => exact List.Sublist.cons p.1 ih
    | some q =>
      rcases Option.map_eq_some'.1 hg with ⟨w, hw, rfl⟩
      exact List.Sublist.cons₂ p.1 ih

theorem singleWf_unpack {kvs : Entries} (h : singleWfB kvs = true) :
    (keysOf kvs).Nodup ∧
      ∀ ms, alookup "_meta" kvs = some (.obj ms) → (keysOf ms).Nodup := by
  rw [singleWfB, Bool.and_eq_true] at h
  rcases h with ⟨h1, h2⟩
  refine ⟨of_decide_eq_true h1, fun ms hms => ?_⟩
  rw [hms] at h2
  exact of_decide_eq_true h2

theorem canonMetaAt_ne {y : String} (h1 : y ≠ "secondary")
    (h2 : y ≠ "privateAttributes") (v : Json) : canonMetaAt y v = none := by
  rw [canonMetaAt, if_neg h1, if_neg h2]

theorem canonSingleAt_other {x : String} (h1 : x ≠ "name") (h2 : x ≠ "anonymous")
    (h3 : x ≠ "_meta") (v : Json) : canonSingleAt x v = some v := by
  rw [canonSingleAt, if_neg h1, if_neg h2, if_neg h3]

theorem alookup_serialize_meta_secondary (sec : Option String)
    (priv : Option (List String)) :
    alookup "secondary" (serialize_meta ⟨sec, priv⟩) = sec.map Json.str := by
  rcases sec with _ | s <;> rcases priv with _ | l
  · rfl
  · cases l <;> rfl
  · rfl
  · cases l <;> rfl

theorem alookup_serialize_meta_priv (sec : Option String)
    (priv : Option (List String)) :
    alookup "privateAttributes" (serialize_meta ⟨sec, priv⟩) =
      if is_empty_vec_option priv then none
      else priv.map (fun l => Json.arr (l.map Json.str)) := by
  rcases sec with _ | s <;> rcases priv with _ | l
  · rfl
  · cases l <;> rfl
  · rfl
  · cases l <;> rfl

theorem alookup_serialize_meta_ne {y : String} (h1 : y ≠ "secondary")
    (h2 : y ≠ "privateAttributes") (sec : Option String)
    (priv : Option (List String)) :
    alookup y (serialize_meta ⟨sec, priv⟩) = none := by
  have hs : ("secondary" : String) ≠ y := fun h => h1 h.symm
  have hp : ("privateAttributes" : String) ≠ y := fun h => h2 h.symm
  rcases sec with _ | s <;> rcases priv with _ | l
  · rfl
  · cases l with
    | nil => rfl
    | cons a t =>
      show alookup y [("privateAttributes", _)] = none
      rw [alookup_cons_ne _ _ _ hp]
      rfl
  · show alookup y [("secondary", Json.str s)] = none
    rw [alookup_cons_ne _ _ _ hs]
    rfl
  · cases l with
    | nil =>
      show alookup y [("secondary", Json.str s)] = none
      rw [alookup_cons_ne _ _ _ hs]
      rfl
    | cons a t =>
      show alookup y (("secondary", Json.str s) :: [("privateAttributes", _)]) = none
      rw [alookup_cons_ne _ _ _ hs, alookup_cons_ne _ _ _ hp]
      rfl

theorem nodup_keys_serialize_meta (sec : Option String)
    (priv : Option (List String)) :
    (keysOf (serialize_meta ⟨sec, priv⟩)).Nodup := by
  rcases sec with _ | s <;> rcases priv with _ | l
  · exact List.nodup_nil
  · cases l <;> simp [serialize_meta, is_empty_vec_option, keysOf]
  · simp [serialize_meta, is_empty_vec_option, keysOf]
  · cases l <;> simp [serialize_meta, is_empty_vec_option, keysOf]

theorem mem_keys_nameEnt {y : String} {o : Option String}
    (h : y ∈ keysOf (nameEnt o)) : y = "name" := by
  rcases o with _ | n
  · exact absurd h (by simp [nameEnt, keysOf])
  · simpa [nameEnt, keysOf] using h

theorem mem_keys_anonEnt {y : String} {o : Option Bool}
    (h : y ∈ keysOf (anonEnt o)) : y = "anonymous" := by
  rcases o with _ | b
  · exact absurd h (by simp [anonEnt, is_false_bool_option, keysOf])
  · cases b
    · exact absurd h (by simp [anonEnt, is_false_bool_option, keysOf])
    · simpa [anonEnt, is_false_bool_option, keysOf] using h

theorem mem_keys_metaEnt {y : String} {o : Option Meta}
    (h : y ∈ keysOf (metaEnt o)) : y = "_meta" := by
  rcases o with _ | m
  · exact absurd h (by simp [metaEnt, is_none_meta_option, keysOf])
  · rw [metaEnt] at h
    by_cases hf : is_none_meta_option (some m)
    · rw [if_pos hf] at h
      exact absurd h (by simp [keysOf])
    · rw [if_neg hf] at h
      simpa [keysOf] using h

theorem nodup_keys_nameEnt (o : Option String) : (keysOf (nameEnt o)).Nodup := by
  cases o <;> simp [nameEnt, keysOf]

theorem nodup_keys_anonEnt (o : Option Bool) : (keysOf (anonEnt o)).Nodup := by
  rcases o with _ | b
  · simp [anonEnt, is_false_bool_option, keysOf]
  · cases b <;> simp [anonEnt, is_false_bool_option, keysOf]

theorem nodup_keys_metaEnt (o : Option Meta) : (keysOf (metaEnt o)).Nodup := by
  rcases o with _ | m
  · simp [metaEnt, is_none_meta_option, keysOf]
  · rw [metaEnt]
    by_cases hf : is_none_meta_option (some m)
    · rw [if_pos hf]
      exact List.nodup_nil
    · rw [if_neg hf]
      simp [keysOf]

/-- The serialized `_meta` option of a rebuilt context is omitted exactly
when the canonicalization of the original `_meta` object is empty. -/
theorem meta_none_iff {ms : Entries} {m : Meta} (nd : (keysOf ms).Nodup)
    (hp : parseMeta ms = .ok m) :
    is_none_meta_option
        (some ⟨m.secondary, privOf (m.private_attributes.getD [])⟩) = true ↔
      canonMetaEntries ms = [] := by
  rcases parseMeta_inv hp with ⟨hsec, hpa⟩
  rw [canonMetaEntries, List.filterMap_eq_nil_iff]
  constructor
  · intro h p hpm
    rw [Option.map_eq_none']
    rw [is_none_meta_option] at h
    dsimp only at h
    rw [Bool.and_eq_true] at h
    rcases h with ⟨h1, h2⟩
    have hsecnone : m.secondary = none := Option.isNone_iff_eq_none.1 h1
    by_cases hp1 : p.1 = "secondary"
    · have hv : alookup "secondary" ms = some p.2 := hp1 ▸ alookup_of_mem_nodup nd hpm
      rw [hv, hsecnone] at hsec
      rcases parseFieldOptString_inv hsec with ⟨ho, _⟩ | ⟨s, _, hr⟩
      · rcases ho with ho | ho
        · exact absurd ho (by simp)
        · have hnull : p.2 = Json.null := Option.some.inj ho
          rw [hp1, hnull]
          rfl
      · exact absurd hr (by simp)
    · by_cases hp2 : p.1 = "privateAttributes"
      · have hv : alookup "privateAttributes" ms = some p.2 :=
          hp2 ▸ alookup_of_mem_nodup nd hpm
        rw [hv] at hpa
        rcases parseFieldOptStrList_inv hpa with ⟨ho, _⟩ | ⟨l, ho, hr⟩
        · rcases ho with ho | ho
          · exact absurd ho (by simp)
          · have hnull : p.2 = Json.null := Option.some.inj ho
            rw [hp2, hnull]
            rfl
        · have harr : p.2 = Json.arr (l.map Json.str) := Option.some.inj ho
          cases l with
          | cons a t =>
            rw [hr] at h2
            exact absurd h2 (by simp [privOf, is_empty_vec_option])
          | nil =>
            rw [hp2, harr]
            rfl
      · exact canonMetaAt_ne hp1 hp2 p.2
  · intro h
    have hsecnone : m.secondary = none := by
      cases hms : m.secondary with
      | none => rfl
      | some s =>
        rw [hms] at hsec
        rcases parseFieldOptString_inv hsec with ⟨_, hr⟩ | ⟨s2, ho, hr⟩
        · exact absurd hr (by simp)
        · have hs2 : s2 = s := Option.some.inj hr.symm
          have hmem := mem_of_alookup_some ho
          have := h _ hmem
          rw [Option.map_eq_none'] at this
          rw [show canonMetaAt "secondary" (Json.str s2) = some (Json.str s2)
            from rfl] at this
          exact Option.noConfusion this
    have hpanil : m.private_attributes.getD [] = [] := by
      cases hpav : m.private_attributes with
      | none => rfl
      | some l =>
        cases l with
        | nil => rfl
        | cons a t =>
          rw [hpav] at hpa
          rcases parseFieldOptStrList_inv hpa with ⟨_, hr⟩ | ⟨l2, ho, hr⟩
          · exact absurd hr (by simp)
          · have hl2 : l2 = a :: t := Option.some.inj hr.symm
            rw [hl2] at ho
            have hmem := mem_of_alookup_some ho
            have := h _ hmem
            rw [Option.map_eq_none'] at this
            rw [show canonMetaAt "privateAttributes"
              (Json.arr ((a :: t).map Json.str)) =
                some (Json.arr ((a :: t).map Json.str)) from rfl] at this
            exact Option.noConfusion this
    rw [hsecnone, hpanil]
    rfl

/-- The serialized `_meta` object of a rebuilt context normalizes, up to
field order, to the canonicalization of the original `_meta` object. -/
theorem meta_canon_jsort {ms : Entries} {m : Meta} (nd : (keysOf ms).Nodup)
    (hp : parseMeta ms = .ok m) :
    jsort (.obj (serialize_meta
        ⟨m.secondary, privOf (m.private_attributes.getD [])⟩)) =
      jsort (.obj (canonMetaEntries ms)) := by
  rcases parseMeta_inv hp with ⟨hsec, hpa⟩
  apply jsort_obj_eq_of_alookup_eq
  · exact nodup_keys_serialize_meta _ _
  · exact List.Nodup.sublist (keysOf_filterMap_sublist canonMetaAt ms) nd
  · intro y
    rw [canonMetaEntries, alookup_filterMap_keyPres canonMetaAt ms nd]
    by_cases hy1 : y = "secondary"
    · subst hy1
      rw [alookup_serialize_meta_secondary]
      rcases parseFieldOptString_inv hsec with ⟨ho, hr⟩ | ⟨s, ho, hr⟩
      · rw [hr]
        rcases ho with ho | ho <;> rw [ho] <;> rfl
      · rw [ho, hr]
        rfl
    · by_cases hy2 : y = "privateAttributes"
      · subst hy2
        rw [alookup_serialize_meta_priv]
        rcases parseFieldOptStrList_inv hpa with ⟨ho, hr⟩ | ⟨l, ho, hr⟩
        · rw [hr]
          rcases ho with ho | ho <;> rw [ho] <;> rfl
        · rw [ho, hr]
          cases l with
          | nil => rfl
          | cons a t => rfl
      · rw [alookup_serialize_meta_ne hy1 hy2]
        cases hv : alookup y ms with
        | none => rfl
        | some v =>
          rw [Option.some_bind, canonMetaAt_ne hy1 hy2]

theorem attrs_of_parse {d : Bool} {svs : Entries} {sk : SingleKindContext}
    (hnd : (keysOf svs).Nodup)
    (hattrs : sk.attributes = svs.filter (fun p => !(consumedKeys d).contains p.1)) :
    (keysOf sk.attributes).Nodup ∧
      ∀ q ∈ sk.attributes, ((consumedKeys d).contains q.1) = false := by
  constructor
  · rw [hattrs]
    exact List.Nodup.sublist (keysOf_filter_sublist _ svs) hnd
  · rw [hattrs]
    intro q hq
    have := (List.mem_filter.1 hq).2
    simpa using this

theorem alookup_attrs_none {d : Bool} {x : String} {at2 : Entries}
    (h5 : ∀ q ∈ at2, ((consumedKeys d).contains q.1) = false)
    (hx : (consumedKeys d).contains x = true) : alookup x at2 = none := by
  rw [alookup_eq_none_iff]
  intro hmem
  rcases List.mem_map.1 hmem with ⟨q, hq, hqx⟩
  have hcontra := h5 q hq
  rw [hqx, hx] at hcontra
  exact absurd hcontra (by simp)

theorem skFrom_nestedResult (k : String) (sk : SingleKindContext)
    (hnd : (keysOf sk.attributes).Nodup) :
    skFrom (nestedResult k sk) =
      ⟨sk.key, sk.name, some (sk.anonymous.getD false), sk.attributes,
        some ⟨sk.meta.bind Meta.secondary,
          privOf ((sk.meta.bind Meta.private_attributes).getD [])⟩⟩ := by
  rw [skFrom, nestedResult]
  dsimp only
  rw [applyEntries_nil sk.attributes hnd]

/-- Per-key agreement, up to `jsort`, between the serialization of a
rebuilt single-kind context and the canonicalization of the object it was
parsed from (every key except a standalone `kind` discriminator). -/
theorem single_canon_alookup {d : Bool} {svs : Entries} {sk : SingleKindContext}
    (k : String) (hnd : (keysOf svs).Nodup)
    (hmnd : ∀ ms, alookup "_meta" svs = some (.obj ms) → (keysOf ms).Nodup)
    (hp : parseSingleKind d svs = .ok sk) (x : String)
    (hx : d = true → x ≠ "kind") :
    (alookup x (serialize_single_kind (skFrom (nestedResult k sk)))).map jsort =
      ((alookup x svs).bind (canonSingleAt x)).map jsort := by
  rcases parseSingleKind_ok_fields hp with ⟨hkey, hname, hanon, hmeta, hattrs⟩
  rcases attrs_of_parse hnd hattrs with ⟨hndat, h5⟩
  rw [skFrom_nestedResult k sk hndat, serialize_single_kind_eq]
  dsimp only
  by_cases hxkey : x = "key"
  · subst hxkey
    rw [alookup_cons_self, hkey, Option.some_bind,
      canonSingleAt_other (by decide) (by decide) (by decide)]
  · rw [alookup_cons_ne _ _ _ (fun h => hxkey h.symm), alookup_append,
      alookup_append, alookup_append]
    by_cases hxname : x = "name"
    · subst hxname
      rw [alookup_nameEnt_self,
        alookup_anonEnt_ne "name" (by decide),
        alookup_attrs_none h5 (by cases d <;> rfl),
        alookup_metaEnt_ne "name" (by decide)]
      simp only [optOr_none, optOr_right_none]
      rcases parseFieldOptString_inv hname with ⟨ho, hr⟩ | ⟨s, ho, hr⟩
      · rw [hr]
        rcases ho with ho | ho <;> rw [ho] <;> rfl
      · rw [ho, hr, Option.some_bind]
        rfl
    · by_cases hxanon : x = "anonymous"
      · subst hxanon
        rw [alookup_nameEnt_ne "anonymous" (by decide),
          alookup_anonEnt_self,
          alookup_attrs_none h5 (by cases d <;> rfl),
          alookup_metaEnt_ne "anonymous" (by decide)]
        simp only [optOr_none, optOr_right_none]
        rcases parseFieldOptBool_inv hanon with ⟨ho, hr⟩ | ⟨b, ho, hr⟩
        · rw [hr]
          rcases ho with ho | ho <;> rw [ho] <;> rfl
        · rw [ho, hr, Option.some_bind]
          cases b <;> rfl
      · by_cases hxmeta : x = "_meta"
        · subst hxmeta
          rw [alookup_nameEnt_ne "_meta" (by decide),
            alookup_anonEnt_ne "_meta" (by decide),
            alookup_attrs_none h5 (by cases d <;> rfl),
            alookup_metaEnt_self]
          simp only [optOr_none]
          rcases parseOptMeta_inv hmeta with ⟨ho, hr⟩ | ⟨ms, m, ho, hpm, hr⟩
          · rw [hr]
            rcases ho with ho | ho <;> rw [ho] <;> rfl
          · rw [ho, hr, Option.some_bind]
            simp only [Option.some_bind]
            have hmnd2 := hmnd ms ho
            cases hcm : canonMetaEntries ms with
            | nil =>
              have hnone := (meta_none_iff hmnd2 hpm).2 hcm
              rw [if_pos hnone,
                show canonSingleAt "_meta" (Json.obj ms) =
                  canonSingleMeta (Json.obj ms) from rfl,
                show canonSingleMeta (Json.obj ms) =
                  (match canonMetaEntries ms with
                   | [] => none
                   | l => some (Json.obj l)) from rfl,
                hcm]
            | cons q qs =>
              have hne : is_none_meta_option
                  (some ⟨m.secondary, privOf (m.private_attributes.getD [])⟩) =
                    false := by
                cases hb : is_none_meta_option
                    (some ⟨m.secondary, privOf (m.private_attributes.getD [])⟩)
                · rfl
                · have := (meta_none_iff hmnd2 hpm).1 hb
                  rw [hcm] at this
                  exact absurd this (by simp)
              rw [if_neg (by rw [hne]; exact Bool.false_ne_true),
                show canonSingleAt "_meta" (Json.obj ms) =
                  canonSingleMeta (Json.obj ms) from rfl,
                show canonSingleMeta (Json.obj ms) =
                  (match canonMetaEntries ms with
                   | [] => none
                   | l => some (Json.obj l)) from rfl,
                hcm]
              simp only [Option.map_some]
              exact congrArg some ((meta_canon_jsort hmnd2 hpm).trans (by rw [hcm]))
        · rw [alookup_nameEnt_ne x hxname,
            alookup_anonEnt_ne x hxanon,
            alookup_metaEnt_ne x hxmeta]
          simp only [optOr_none, optOr_right_none]
          have hxc : x ∉ consumedKeys d := by
            intro hm
            cases d with
            | false =>
              rw [show consumedKeys false =
                ["key", "name", "anonymous", "_meta"] from rfl] at hm
              simp only [List.mem_cons, List.not_mem_nil, or_false] at hm
              rcases hm with h | h | h | h
              · exact hxkey h
              · exact hxname h
              · exact hxanon h
              · exact hxmeta h
            | true =>
              rw [show consumedKeys true =
                ["kind", "key", "name", "anonymous", "_meta"] from rfl] at hm
              simp only [List.mem_cons, List.not_mem_nil, or_false] at hm
              rcases hm with h | h | h | h | h
              · exact hx rfl h
              · exact hxkey h
              · exact hxname h
              · exact hxanon h
              · exact hxmeta h
          have hax : alookup x sk.attributes = alookup x svs := by
            rw [hattrs]
            apply alookup_filter_pos
            intro p hp1
            show (!(consumedKeys d).contains p.1) = true
            rw [hp1]
            simpa using hxc
          rw [hax]
          cases hsv : alookup x svs with
          | none => rfl
          | some v =>
            rw [Option.some_bind, canonSingleAt_other hxname hxanon hxmeta]

theorem nodup_keys_ssk {sk : SingleKindContext}
    (hnd : (keysOf sk.attributes).Nodup)
    (h4 : ∀ y ∈ keysOf sk.attributes,
      y ≠ "key" ∧ y ≠ "name" ∧ y ≠ "anonymous" ∧ y ≠ "_meta") :
    (keysOf (serialize_single_kind sk)).Nodup := by
  rw [serialize_single_kind_eq]
  rw [show keysOf (("key", Json.str sk.key) ::
      (nameEnt sk.name ++ anonEnt sk.anonymous ++ sk.attributes ++ metaEnt sk.meta)) =
      "key" :: (keysOf (nameEnt sk.name) ++ keysOf (anonEnt sk.anonymous) ++
        keysOf sk.attributes ++ keysOf (metaEnt sk.meta)) from by simp [keysOf]]
  refine List.nodup_cons.2 ⟨?_, ?_⟩
  · intro hmem
    simp only [List.mem_append] at hmem
    rcases hmem with ((h | h) | h) | h
    · exact absurd (mem_keys_nameEnt h) (by decide)
    · exact absurd (mem_keys_anonEnt h) (by decide)
    · exact (h4 _ h).1 rfl
    · exact absurd (mem_keys_metaEnt h) (by decide)
  · refine List.Nodup.append (List.Nodup.append (List.Nodup.append
      (nodup_keys_nameEnt sk.name) (nodup_keys_anonEnt sk.anonymous) ?_) hnd ?_)
      (nodup_keys_metaEnt sk.meta) ?_
    · intro a ha hb
      rw [mem_keys_nameEnt ha] at hb
      exact absurd (mem_keys_anonEnt hb) (by decide)
    · intro a ha hb
      rcases List.mem_append.1 ha with h | h
      · exact (h4 a hb).2.1 (mem_keys_nameEnt h)
      · exact (h4 a hb).2.2.1 (mem_keys_anonEnt h)
    · intro a ha hb
      simp only [List.mem_append] at ha
      rcases ha with (h | h) | h
      · rw [mem_keys_nameEnt h] at hb
        exact absurd (mem_keys_metaEnt hb) (by decide)
      · rw [mem_keys_anonEnt h] at hb
        exact absurd (mem_keys_metaEnt hb) (by decide)
      · exact (h4 a h).2.2.2 (mem_keys_metaEnt hb)

theorem nodup_keys_standalone {v : Json} {sk : SingleKindContext}
    (hnd : (keysOf sk.attributes).Nodup)
    (h4 : ∀ y ∈ keysOf sk.attributes,
      y ≠ "key" ∧ y ≠ "name" ∧ y ≠ "anonymous" ∧ y ≠ "_meta")
    (hkind : "kind" ∉ keysOf sk.attributes) :
    (keysOf (("kind", v) :: serialize_single_kind sk)).Nodup := by
  rw [show keysOf (("kind", v) :: serialize_single_kind sk) =
    "kind" :: keysOf (serialize_single_kind sk) from rfl]
  refine List.nodup_cons.2 ⟨?_, nodup_keys_ssk hnd h4⟩
  intro hmem
  rw [serialize_single_kind_eq,
    show keysOf (("key", Json.str sk.key) ::
      (nameEnt sk.name ++ anonEnt sk.anonymous ++ sk.attributes ++ metaEnt sk.meta)) =
      "key" :: (keysOf (nameEnt sk.name) ++ keysOf (anonEnt sk.anonymous) ++
        keysOf sk.attributes ++ keysOf (metaEnt sk.meta)) from by simp [keysOf]] at hmem
  simp only [List.mem_cons, List.mem_append] at hmem
  rcases hmem with h | (((h | h) | h) | h)
  · exact absurd h (by decide)
  · exact absurd (mem_keys_nameEnt h) (by decide)
  · exact absurd (mem_keys_anonEnt h) (by decide)
  · exact hkind h
  · exact absurd (mem_keys_metaEnt h) (by decide)

/-- The serialization of a context rebuilt from a nested single-kind object
normalizes, up to field order, to the canonicalization of that object. -/
theorem single_canon_jsort {svs : Entries} {sk : SingleKindContext} (k : String)
    (hnd : (keysOf svs).Nodup)
    (hmnd : ∀ ms, alookup "_meta" svs = some (.obj ms) → (keysOf ms).Nodup)
    (hp : parseSingleKind false svs = .ok sk) :
    jsort (.obj (serialize_single_kind (skFrom (nestedResult k sk)))) =
      jsort (.obj (canonSingleEntries svs)) := by
  rcases parseSingleKind_ok_fields hp with ⟨_, _, _, _, hattrs⟩
  rcases attrs_of_parse hnd hattrs with ⟨hndat, h5⟩
  have h4 : ∀ y ∈ keysOf sk.attributes,
      y ≠ "key" ∧ y ≠ "name" ∧ y ≠ "anonymous" ∧ y ≠ "_meta" := by
    intro y hy
    rcases List.mem_map.1 hy with ⟨q, hq, rfl⟩
    have hc := h5 q hq
    refine ⟨?_, ?_, ?_, ?_⟩ <;> intro he <;> rw [he] at hc <;>
      exact absurd hc (by decide)
  apply jsort_obj_eq_of_alookup_eq
  · rw [skFrom_nestedResult k sk hndat]
    exact nodup_keys_ssk hndat h4
  · exact List.Nodup.sublist (keysOf_filterMap_sublist canonSingleAt svs) hnd
  · intro x
    rw [canonSingleEntries, alookup_filterMap_keyPres canonSingleAt svs hnd]
    exact single_canon_alookup k hnd hmnd hp x (fun h => absurd h Bool.false_ne_true)

/-- The standalone serialization of a context rebuilt from a standalone
single-kind object normalizes, up to field order, to the canonicalization
of that object. -/
theorem standalone_canon_jsort {kvs : Entries} {sk : SingleKindContext}
    {s : String} (hnd : (keysOf kvs).Nodup)
    (hmnd : ∀ ms, alookup "_meta" kvs = some (.obj ms) → (keysOf ms).Nodup)
    (hp : parseSingleKind true kvs = .ok sk)
    (hkind : alookup "kind" kvs = some (.str s)) :
    jsort (.obj (("kind", Json.str s) ::
        serialize_single_kind (skFrom (nestedResult s sk)))) =
      jsort (.obj (canonSingleEntries kvs)) := by
  rcases parseSingleKind_ok_fields hp with ⟨_, _, _, _, hattrs⟩
  rcases attrs_of_parse hnd hattrs with ⟨hndat, h5⟩
  have h4 : ∀ y ∈ keysOf sk.attributes,
      y ≠ "key" ∧ y ≠ "name" ∧ y ≠ "anonymous" ∧ y ≠ "_meta" := by
    intro y hy
    rcases List.mem_map.1 hy with ⟨q, hq, rfl⟩
    have hc := h5 q hq
    refine ⟨?_, ?_, ?_, ?_⟩ <;> intro he <;> rw [he] at hc <;>
      exact absurd hc (by decide)
  have hk5 : "kind" ∉ keysOf sk.attributes := by
    intro hm
    rcases List.mem_map.1 hm with ⟨q, hq, hqk⟩
    have hc := h5 q hq
    rw [hqk] at hc
    exact absurd hc (by decide)
  apply jsort_obj_eq_of_alookup_eq
  · rw [skFrom_nestedResult s sk hndat]
    exact nodup_keys_standalone hndat h4 hk5
  · exact List.Nodup.sublist (keysOf_filterMap_sublist canonSingleAt kvs) hnd
  · intro x
    rw [canonSingleEntries, alookup_filterMap_keyPres canonSingleAt kvs hnd]
    by_cases hxk : x = "kind"
    · subst hxk
      rw [alookup_cons_self, hkind, Option.some_bind,
        canonSingleAt_other (by decide) (by decide) (by decide)]
    · rw [alookup_cons_ne _ _ _ (fun h => hxk h.symm)]
      exact single_canon_alookup s hnd hmnd hp x (fun _ => hxk)

theorem forall2_compose {α β γ : Type} {R : α → β → Prop} {S : β → γ → Prop}
    {T : α → γ → Prop} (hRS : ∀ a b c, R a b → S b c → T a c)
    {l1 : List α} {l2 : List β} {l3 : List γ} (h1 : List.Forall₂ R l1 l2)
    (h2 : List.Forall₂ S l2 l3) : List.Forall₂ T l1 l3 := by
  induction h1 generalizing l3 with
  | nil =>
    cases h2
    exact List.Forall₂.nil
  | cons hr ht ih =>
    cases h2 with
    | cons hs hts => exact List.Forall₂.cons (hRS _ _ _ hr hs) (ih hts)

theorem forall2_strengthen {α β : Type} {R : α → β → Prop} {Q : α → Prop}
    {l1 : List α} {l2 : List β} (h : List.Forall₂ R l1 l2)
    (hq : ∀ a ∈ l1, Q a) : List.Forall₂ (fun a b => R a b ∧ Q a) l1 l2 := by
  induction h with
  | nil => exact List.Forall₂.nil
  | cons hr ht ih =>
    exact List.Forall₂.cons ⟨hr, hq _ (List.mem_cons_self _ _)⟩
      (ih (fun a ha => hq a (List.mem_cons_of_mem _ ha)))

theorem forall2_keys {rest : Entries} {cs : List SingleContext}
    {R : String × Json → SingleContext → Prop}
    (hk : ∀ p c, R p c → c.kind = p.1) (h : List.Forall₂ R rest cs) :
    cs.map SingleContext.kind = keysOf rest := by
  induction h with
  | nil => rfl
  | @cons p c l1 l2 hr ht ih =>
    show c.kind :: l2.map SingleContext.kind = p.1 :: keysOf l1
    rw [hk _ _ hr, ih]

theorem multi_item_inv {pk : String} {pv : Json} {q : String × SingleKindContext}
    (h : (do
      let k ← kindFromString pk
      match pv with
      | Json.obj svs => (parseSingleKind false svs).map (fun c => (k, c))
      | _ => Except.error "nested context must be an object") = .ok q) :
    q.1 = pk ∧ pk ≠ "kind" ∧
      ∃ svs, pv = Json.obj svs ∧ parseSingleKind false svs = .ok q.2 := by
  rcases except_bind_ok h with ⟨k2, hk2, h2⟩
  rcases kindFromString_ok_inv hk2 with ⟨hkk, _, hknot⟩
  cases pv with
  | obj svs =>
    rcases except_map_ok h2 with ⟨sk, hsk, hq⟩
    subst hq
    exact ⟨hkk, hknot, svs, rfl, hsk⟩
  | null => exact absurd h2 (by simp)
  | bool b => exact absurd h2 (by simp)
  | num n => exact absurd h2 (by simp)
  | str s => exact absurd h2 (by simp)
  | arr l => exact absurd h2 (by simp)

/-- Per-key agreement, up to `jsort`, between the serialized nested objects
of a rebuilt multi-kind context and the canonicalization of the nested
objects it was parsed from. -/
theorem multi_pairs_alookup {rest : Entries} {cs : List SingleContext}
    (h : List.Forall₂ (fun p c => p.1 ≠ "kind" ∧ c.kind = p.1 ∧
        ∃ svs sk, p.2 = Json.obj svs ∧ parseSingleKind false svs = .ok sk ∧
          c = nestedResult p.1 sk ∧ (keysOf svs).Nodup ∧
          (∀ ms, alookup "_meta" svs = some (.obj ms) → (keysOf ms).Nodup))
      rest cs) (x : String) :
    (alookup x (cs.map (fun c =>
        (c.kind, Json.obj (serialize_single_kind (skFrom c)))))).map jsort =
      ((alookup x rest).bind (canonNestedAt x)).map jsort := by
  induction h with
  | nil => rfl
  | @cons p c l1 l2 hr ht ih =>
    obtain ⟨hk0, hck, svs, sk, hobj, hps, hcdef, hnds, hmnds⟩ := hr
    rw [List.map_cons, hck]
    by_cases hx : x = p.1
    · subst hx
      rw [alookup_cons_self p.1 (Json.obj (serialize_single_kind (skFrom c))) _,
        show alookup p.1 (p :: l1) = some p.2 from by
          rw [alookup_cons, if_pos rfl],
        hobj, Option.some_bind,
        show canonNestedAt p.1 (Json.obj svs) =
          some (Json.obj (canonSingleEntries svs)) from by
            rw [canonNestedAt, if_neg hk0]; rfl]
      show some (jsort (Json.obj (serialize_single_kind (skFrom c)))) =
        some (jsort (Json.obj (canonSingleEntries svs)))
      refine congrArg some ?_
      rw [hcdef]
      exact single_canon_jsort p.1 hnds hmnds hps
    · rw [alookup_cons_ne x (p.1, Json.obj (serialize_single_kind (skFrom c))) _
        (fun he => hx he.symm),
        alookup_cons_ne x p _ (fun he => hx he.symm)]
      exact ih

theorem canonModern_single {kvs : Entries} {s : String}
    (hk : alookup "kind" kvs = some (.str s)) (hs : s ≠ "multi") :
    canonModern (.obj kvs) = .obj (canonSingleEntries kvs) := by
  rw [show canonModern (Json.obj kvs) =
    (if alookup "kind" kvs = some (Json.str "multi") then
      Json.obj (kvs.filterMap (fun p => (canonNestedAt p.1 p.2).map (fun w => (p.1, w))))
    else Json.obj (canonSingleEntries kvs)) from rfl, hk,
    if_neg (fun he => hs (Json.str.inj (Option.some.inj he)))]

theorem canonModern_multi {kvs : Entries}
    (hk : alookup "kind" kvs = some (.str "multi")) :
    canonModern (.obj kvs) =
      .obj (kvs.filterMap (fun p => (canonNestedAt p.1 p.2).map (fun w => (p.1, w)))) := by
  rw [show canonModern (Json.obj kvs) =
    (if alookup "kind" kvs = some (Json.str "multi") then
      Json.obj (kvs.filterMap (fun p => (canonNestedAt p.1 p.2).map (fun w => (p.1, w))))
    else Json.obj (canonSingleEntries kvs)) from rfl, hk, if_pos rfl]

theorem modernWf_single {kvs : Entries} (h : modernWfB (.obj kvs) = true) :
    singleWfB kvs = true := by
  rw [show modernWfB (Json.obj kvs) =
    (singleWfB kvs &&
      (match alookup "kind" kvs with
       | some (.str "multi") =>
         kvs.all (fun p =>
           if p.1 = "kind" then true
           else match p.2 with
             | .obj svs => singleWfB svs
             | _ => true)
       | _ => true)) from rfl] at h
  rw [Bool.and_eq_true] at h
  exact h.1

theorem modernWf_multi {kvs : Entries} (h : modernWfB (.obj kvs) = true)
    (hk : alookup "kind" kvs = some (.str "multi")) :
    singleWfB kvs = true ∧
      ∀ p ∈ kvs, p.1 ≠ "kind" → ∀ svs, p.2 = Json.obj svs →
        singleWfB svs = true := by
  rw [show modernWfB (Json.obj kvs) =
    (singleWfB kvs &&
      (match alookup "kind" kvs with
       | some (.str "multi") =>
         kvs.all (fun p =>
           if p.1 = "kind" then true
           else match p.2 with
             | .obj svs => singleWfB svs
             | _ => true)
       | _ => true)) from rfl] at h
  rw [Bool.and_eq_true] at h
  rcases h with ⟨h1, h2⟩
  rw [hk] at h2
  have h3 : kvs.all (fun p =>
      if p.1 = "kind" then true
      else match p.2 with
        | .obj svs => singleWfB svs
        | _ => true) = true := h2
  refine ⟨h1, fun p hp hpk svs hsvs => ?_⟩
  have h4 := List.all_eq_true.1 h3 p hp
  rw [if_neg hpk, hsvs] at h4
  exact h4

/-- C4: the literal claim fails — beyond `anonymous: false` and an empty
`_meta` object, re-encoding also drops a null `name` (and, more generally,
null optional fields and unknown or empty `_meta` entries).  The modern
single-kind input with a null `name` decodes, its context re-encodes
without the `name` field, yet the claimed exception set
(`stripDefaults`) keeps `name: null`, so the two sides differ even up to
field order. -/
theorem c4_roundtrip_counterexample :
    decode (.obj [("kind", Json.str "user"), ("key", Json.str "a"),
        ("name", Json.null)]) =
      .ok (Context.single ⟨"user", "a", none, false, [], none, none⟩) ∧
    modernWfB (.obj [("kind", Json.str "user"), ("key", Json.str "a"),
        ("name", Json.null)]) = true ∧
    encode (Context.single ⟨"user", "a", none, false, [], none, none⟩) =
      some (.obj [("kind", Json.str "user"), ("key", Json.str "a")]) ∧
    stripDefaults (.obj [("kind", Json.str "user"), ("key", Json.str "a"),
        ("name", Json.null)]) =
      .obj [("kind", Json.str "user"), ("key", Json.str "a"),
        ("name", Json.null)] ∧
    jsort (.obj [("kind", Json.str "user"), ("key", Json.str "a")]) ≠
      jsort (.obj [("kind", Json.str "user"), ("key", Json.str "a"),
        ("name", Json.null)]) :=
  ⟨rfl, rfl, rfl, rfl, by decide⟩

/-- C4 (amended): for every modern input with duplicate-free keys that
decodes to a context, encoding that context yields a JSON value equal up to
object-field order to the canonicalization of the input — the input with
null `name` / `anonymous` / `_meta` fields, `anonymous: false`, `_meta`
entries other than a string `secondary` and a non-empty `privateAttributes`
array, and `_meta` objects that become empty, dropped. -/
theorem c4_canonical_roundtrip (J : Json) (v : ContextVariant) (C : Context)
    (hwf : modernWfB J = true) (hv : decodeVariant J = .ok v)
    (hni : v.isImplicit = false) (hc : contextFromVariant v = .ok C) :
    ∃ E, encode C = some E ∧ jsort E = jsort (canonModern J) := by
  cases J with
  | null => exact Except.noConfusion hv
  | bool b => exact Except.noConfusion hv
  | num n => exact Except.noConfusion hv
  | str s => exact Except.noConfusion hv
  | arr l => exact Except.noConfusion hv
  | obj kvs =>
    rw [decodeVariant] at hv
    cases hk : alookup "kind" kvs with
    | none =>
      rw [hk] at hv
      rcases except_map_ok hv with ⟨u, _, hvv⟩
      rw [← hvv] at hni
      exact absurd hni (by simp [ContextVariant.isImplicit])
    | some w =>
      rw [hk] at hv
      cases w with
      | null => exact Except.noConfusion hv
      | bool b => exact Except.noConfusion hv
      | num n => exact Except.noConfusion hv
      | arr l => exact Except.noConfusion hv
      | obj o => exact Except.noConfusion hv
      | str s =>
        by_cases hs : s = "multi"
        · subst hs
          have hvm : Except.map ContextVariant.multi (parseMulti kvs) =
              Except.ok v := hv
          rcases except_map_ok hvm with ⟨m, hpm, hvv⟩
          subst hvv
          rw [contextFromVariant_multi] at hc
          rcases except_bind_ok hc with ⟨cs, hmapb, hc2⟩
          by_cases hemp : cs.isEmpty = true
          · rw [if_pos hemp] at hc2
            exact Except.noConfusion hc2
          · rw [if_neg hemp] at hc2
            have hC : Context.multi cs = C := Except.ok.inj hc2
            subst hC
            rcases modernWf_multi hwf hk with ⟨hwf1, hwfn⟩
            rcases singleWf_unpack hwf1 with ⟨hndkvs, _⟩
            rw [parseMulti] at hpm
            rcases except_bind_ok hpm with ⟨cs0, hmap0, hm2⟩
            have hm : (⟨"multi", cs0⟩ : MultiKindContext) = m := Except.ok.inj hm2
            have hmc : m.contexts = cs0 := by rw [← hm]
            rw [hmc] at hmapb
            have F1 := mapM_ok_forall2 hmap0
            have F2 := mapM_ok_forall2 hmapb
            have F3 : List.Forall₂ (fun (p : String × Json) (c : SingleContext) =>
                p.1 ≠ "kind" ∧ c.kind = p.1 ∧
                ∃ svs sk, p.2 = Json.obj svs ∧
                  parseSingleKind false svs = .ok sk ∧
                  c = nestedResult p.1 sk)
                (kvs.filter (fun p => !(p.1 = "kind"))) cs := by
              refine forall2_compose ?_ F1 F2
              intro p q c hF hB
              rcases multi_item_inv hF with ⟨hq1, hknot, svs, hobj, hpsk⟩
              rcases buildNested_ok_inv hB with ⟨_, _, hcd⟩
              refine ⟨hknot, ?_, svs, q.2, hobj, hpsk, ?_⟩
              · rw [hcd]
                exact hq1
              · rw [hcd, hq1]
            have hwfQ : ∀ p ∈ kvs.filter (fun p => !(p.1 = "kind")),
                ∀ svs, p.2 = Json.obj svs →
                  ((keysOf svs).Nodup ∧
                    ∀ ms, alookup "_meta" svs = some (.obj ms) →
                      (keysOf ms).Nodup) := by
              intro p hp svs hsvs
              have hpk : p.1 ≠ "kind" := by
                have := (List.mem_filter.1 hp).2
                simpa using this
              exact singleWf_unpack (hwfn p (List.mem_filter.1 hp).1 hpk svs hsvs)
            have F4 := forall2_strengthen F3 hwfQ
            have F5 : List.Forall₂ (fun (p : String × Json) (c : SingleContext) =>
                p.1 ≠ "kind" ∧ c.kind = p.1 ∧
                ∃ svs sk, p.2 = Json.obj svs ∧
                  parseSingleKind false svs = .ok sk ∧
                  c = nestedResult p.1 sk ∧ (keysOf svs).Nodup ∧
                  (∀ ms, alookup "_meta" svs = some (.obj ms) →
                    (keysOf ms).Nodup))
                (kvs.filter (fun p => !(p.1 = "kind"))) cs := by
              refine List.Forall₂.imp ?_ F4
              intro p c hr
              rcases hr with ⟨⟨hknot, hck, svs, sk, hobj, hps, hcd⟩, hq⟩
              rcases hq svs hobj with ⟨hn1, hn2⟩
              exact ⟨hknot, hck, svs, sk, hobj, hps, hcd, hn1, hn2⟩
            have hkeys : cs.map SingleContext.kind =
                keysOf (kvs.filter (fun p => !(p.1 = "kind"))) :=
              forall2_keys (fun p c hr => hr.2.1) F5
            have hndr : (keysOf (kvs.filter (fun p => !(p.1 = "kind")))).Nodup :=
              List.Nodup.sublist (keysOf_filter_sublist _ kvs) hndkvs
            have hknr : "kind" ∉ keysOf (kvs.filter (fun p => !(p.1 = "kind"))) := by
              intro hm0
              rcases List.mem_map.1 hm0 with ⟨q, hq, hqk⟩
              have hq2 := (List.mem_filter.1 hq).2
              rw [hqk] at hq2
              exact absurd hq2 (by decide)
            refine ⟨Json.obj (("kind", Json.str "multi") ::
              cs.map (fun c =>
                (c.kind, Json.obj (serialize_single_kind (skFrom c))))), ?_, ?_⟩
            · rw [show encode (Context.multi cs) =
                some (Json.obj (("kind", Json.str "multi") ::
                  (cs.map single_kind_context_from).map
                    (fun p => (p.1, Json.obj (serialize_single_kind p.2)))))
                from rfl, List.map_map]
              rfl
            · rw [canonModern_multi hk]
              apply jsort_obj_eq_of_alookup_eq
              · rw [show keysOf (("kind", Json.str "multi") ::
                  cs.map (fun c =>
                    (c.kind, Json.obj (serialize_single_kind (skFrom c))))) =
                  "kind" :: keysOf (cs.map (fun c =>
                    (c.kind, Json.obj (serialize_single_kind (skFrom c)))))
                  from rfl]
                have hkm : keysOf (cs.map (fun c =>
                    (c.kind, Json.obj (serialize_single_kind (skFrom c))))) =
                    cs.map SingleContext.kind := by
                  rw [keysOf, List.map_map]
                  rfl
                rw [hkm, hkeys]
                exact List.nodup_cons.2 ⟨hknr, hndr⟩
              · exact List.Nodup.sublist
                  (keysOf_filterMap_sublist canonNestedAt kvs) hndkvs
              · intro x
                rw [alookup_filterMap_keyPres canonNestedAt kvs hndkvs]
                by_cases hx : x = "kind"
                · subst hx
                  rw [alookup_cons_self "kind" (Json.str "multi") _, hk,
                    Option.some_bind,
                    show canonNestedAt "kind" (Json.str "multi") =
                      some (Json.str "multi") from by
                        rw [canonNestedAt, if_pos rfl]]
                · rw [alookup_cons_ne x ("kind", Json.str "multi") _
                    (fun he => hx he.symm)]
                  have hfx : alookup x kvs =
                      alookup x (kvs.filter (fun p => !(p.1 = "kind"))) := by
                    symm
                    apply alookup_filter_pos
                    intro p hp1
                    show (!(p.1 = "kind") : Bool) = true
                    rw [hp1]
                    simp [hx]
                  rw [hfx]
                  exact multi_pairs_alookup F5 x
        · have hvs : (if s = "multi" then
              Except.map ContextVariant.multi (parseMulti kvs)
            else if s = "" then Except.error msgKindEmpty
            else do
              let k ← kindFromString s
              let c ← parseSingleKind true kvs
              Except.ok (ContextVariant.single ⟨k, c⟩)) = Except.ok v := hv
          rw [if_neg hs] at hvs
          by_cases hse : s = ""
          · rw [if_pos hse] at hvs
            exact Except.noConfusion hvs
          · rw [if_neg hse] at hvs
            rcases except_bind_ok hvs with ⟨k, hkf, hv2⟩
            rcases except_bind_ok hv2 with ⟨sk, hps, hv3⟩
            have hvv : ContextVariant.single ⟨k, sk⟩ = v := Except.ok.inj hv3
            subst hvv
            rcases kindFromString_ok_inv hkf with ⟨hks, _, _⟩
            subst hks
            have hc2 : (buildNested (k, sk)).map Context.single = .ok C := hc
            rcases except_map_ok hc2 with ⟨c0, hb, hC⟩
            rcases buildNested_ok_inv hb with ⟨_, _, hc0⟩
            subst hc0
            subst hC
            rcases singleWf_unpack (modernWf_single hwf) with ⟨hnd, hmnd⟩
            refine ⟨Json.obj (("kind", Json.str k) ::
              serialize_single_kind (skFrom (nestedResult k sk))), rfl, ?_⟩
            rw [canonModern_single hk hs]
            exact standalone_canon_jsort hnd hmnd hps hk

/-- Witness: a minimal standalone single-kind input (`kind: org`,
`key: x`) round-trips to its own canonical form. -/
theorem c4_canonical_roundtrip_witness :
    ∃ E, encode (Context.single ⟨"org", "x", none, false, [], none, none⟩) =
        some E ∧
      jsort E = jsort (canonModern (.obj [("kind", Json.str "org"),
        ("key", Json.str "x")])) :=
  c4_canonical_roundtrip
    (.obj [("kind", Json.str "org"), ("key", Json.str "x")])
    (ContextVariant.single ⟨"org", ⟨"x", none, none, [], none⟩⟩)
    (Context.single ⟨"org", "x", none, false, [], none, none⟩)
    rfl rfl rfl rfl

end ContextSerde

